import Mathlib

/-!
A shallow embedding, in Lean 4, of the lottery-bot ticket store
(`lottery_bot/storage.py`) together with the admin restore/reset handlers
(`lottery_bot/handlers/admin.py`).  Python dicts are modelled as
insertion-ordered association lists; Python ints as `Int`; timestamps
(`datetime.now`) as explicit `Nat` parameters threaded through the
operations; the nondeterminism of `uuid4` and `random.sample` as explicit
parameters constrained by legality side conditions.  Each operation is a
pure function from the full storage state to the updated state plus the
value the Python coroutine returns.
-/

namespace LotteryBot

/-! ## Python dict as insertion-ordered association list -/

/-- `d.get(k)`: the value stored at key `k`, if any. -/
def alGet {κ α : Type} [DecidableEq κ] (d : List (κ × α)) (k : κ) : Option α :=
  (d.find? (fun p => decide (p.1 = k))).map (·.2)

/-- `d[k] = v`: replace in place if the key is present, else append (Python
dicts preserve insertion order and keep an updated key at its position). -/
def alInsert {κ α : Type} [DecidableEq κ] (d : List (κ × α)) (k : κ) (v : α) :
    List (κ × α) :=
  if (alGet d k).isSome then
    d.map (fun p => if p.1 = k then (k, v) else p)
  else
    d ++ [(k, v)]

/-- `d.pop(k, None)`, state part: drop the entry with key `k`. -/
def alErase {κ α : Type} [DecidableEq κ] (d : List (κ × α)) (k : κ) :
    List (κ × α) :=
  d.filter (fun p => decide (p.1 ≠ k))

/-- The keys of the dict, in insertion order. -/
def alKeys {κ α : Type} (d : List (κ × α)) : List κ := d.map (·.1)

/-! ## Data model (`storage.py`) -/

/-- Python truthiness of an optional string: `None` and `""` are falsy. -/
def truthy : Option String → Bool
  | some t => decide (t ≠ "")
  | none => false

/-- A purchase payload, as built by `create_pending_purchase` and mutated by
`approve_purchase` / `reject_purchase` / `cancel_approved_purchase`.  The
`tickets`, `resolved_at` and `cancelled_at` keys are absent until set; they
default to `[]` / `none` / `none` (matching `purchase.get("tickets", [])`). -/
structure Purchase where
  purchase_id : String
  user_id : Int
  username : Option String
  full_name : Option String
  phone_number : Option String
  quantity : Int
  ticket_price : Int
  amount : Int
  receipt_file_id : String
  receipt_type : String
  created_at : Nat
  status : String
  tickets : List Int := []
  resolved_at : Option Nat := none
  cancelled_at : Option Nat := none
deriving Repr, DecidableEq

/-- An entry of a user's append-only history list.  Entries written by
`approve_purchase` carry no `status` key (`none`); entries written by
`cancel_approved_purchase` carry `"cancelled"`. -/
structure HistoryEntry where
  purchase_id : String
  tickets : List Int
  amount : Int
  quantity : Int
  resolved_at : Nat
  status : Option String := none
deriving Repr, DecidableEq

/-- A per-user analytics record (`self._data["users"][str(user_id)]`). -/
structure UserRecord where
  user_id : Int
  username : Option String
  full_name : Option String
  phone_number : Option String
  first_seen : Nat
  last_active : Nat
  purchases : Int
  total_tickets : Int
  total_spent : Int
  history : List HistoryEntry
deriving Repr, DecidableEq

/-- The `meta["start_message"]` blob: template text plus optional media. -/
structure StartMessage where
  text : String
  media : Option String
deriving Repr, DecidableEq

/-- The `meta` configuration blob. -/
structure Meta where
  start_message : StartMessage
  subscription_message : String
  card_number : String
  manager_contact : String
  game_info_message : String
deriving Repr, DecidableEq

/-- One subscription channel descriptor. -/
structure ChannelInfo where
  id : String
  title : String
  link : Option String
deriving Repr, DecidableEq

/-- The `subscriptions` configuration blob. -/
structure Subscriptions where
  enabled : Bool
  channels : List ChannelInfo
deriving Repr, DecidableEq

/-- The full storage state: `self._data` plus the configured
`self._total_tickets`.  Purchase maps are keyed by purchase id; the
`user_tickets` and `users` maps are keyed by user id (Python uses
`str(user_id)`, and `str` is injective on ints). -/
structure Storage where
  total_tickets : Nat
  available_tickets : List Int
  pending : List (String × Purchase)
  approved : List (String × Purchase)
  rejected : List (String × Purchase)
  user_tickets : List (Int × List Int)
  users : List (Int × UserRecord)
  meta : Meta
  subscriptions : Subscriptions
deriving Repr, DecidableEq

/-- `list(range(1, total_tickets + 1))`. -/
def initialTickets (n : Nat) : List Int :=
  (List.range n).map (fun (i : Nat) => (i : Int) + 1)

/-- The default meta blob of `_default_payload` after `_ensure_defaults`
(which fills `card_number` with the configured default or `""`). -/
def defaultMeta (card : String) : Meta :=
  {
    start_message := { text := "DEFAULT_START_TEMPLATE", media := none }
    subscription_message := "DEFAULT_SUBSCRIPTION_MESSAGE"
    card_number := card
    manager_contact := "@menejer_1w"
    game_info_message := "DEFAULT_GAME_INFO_MESSAGE" }

/-- `_default_payload()` (plus `_ensure_defaults`): the state of a fresh
store with pool `1..N` and empty collections. -/
def initialStorage (n : Nat) (card : String) : Storage :=
  {
    total_tickets := n
    available_tickets := initialTickets n
    pending := []
    approved := []
    rejected := []
    user_tickets := []
    users := []
    meta := defaultMeta card
    subscriptions := { enabled := false, channels := [] } }

/-! ## Store operations -/

/-- `register_user`: create or update a user record for analytics.  The
Python code overwrites `username` whenever the argument is not `None`
(`if username is not None`), but `full_name` and `phone_number` only when
the argument is truthy (`if full_name:` / `if phone_number:`). -/
def register_user (s : Storage) (user_id : Int)
    (username full_name phone_number : Option String) (now : Nat) : Storage :=
  match alGet s.users user_id with
  | none =>
      let record : UserRecord :=
  {
          user_id := user_id
          username := username
          full_name := full_name
          phone_number := phone_number
          first_seen := now
          last_active := now
          purchases := 0
          total_tickets := 0
          total_spent := 0
          history := [] }
      { s with users := alInsert s.users user_id record }
  | some record =>
      let record := match username with
        | some u => { record with username := some u }
        | none => record
      let record := if truthy full_name then
          { record with full_name := full_name } else record
      let record := if truthy phone_number then
          { record with phone_number := phone_number } else record
      let record := { record with last_active := now }
      { s with users := alInsert s.users user_id record }

/-- `create_pending_purchase`.  The generated `uuid4().hex` is passed in as
`purchase_id`; the current time as `now`. -/
def create_pending_purchase (s : Storage) (purchase_id : String)
    (user_id : Int) (username full_name phone_number : Option String)
    (quantity ticket_price : Int) (receipt_file_id receipt_type : String)
    (now : Nat) : String × Storage :=
  let payload : Purchase :=
  {
      purchase_id := purchase_id
      user_id := user_id
      username := username
      full_name := full_name
      phone_number := phone_number
      quantity := quantity
      ticket_price := ticket_price
      amount := ticket_price * quantity
      receipt_file_id := receipt_file_id
      receipt_type := receipt_type
      created_at := now
      status := "pending" }
  (purchase_id, { s with pending := alInsert s.pending purchase_id payload })

/-- `for ticket in tickets: available.remove(ticket)` — remove the first
occurrence of each sampled ticket in turn. -/
def removeEach (l : List Int) (ts : List Int) : List Int :=
  ts.foldl (fun acc t => acc.erase t) l

/-- A fresh analytics record, as built by the `setdefault` default in
`approve_purchase` for a user who has never called `register_user`. -/
def freshRecordOf (p : Purchase) (now : Nat) : UserRecord :=
  {
    user_id := p.user_id
    username := p.username
    full_name := p.full_name
    phone_number := p.phone_number
    first_seen := now
    last_active := now
    purchases := 0
    total_tickets := 0
    total_spent := 0
    history := [] }

/-- `approve_purchase`.  `samp` stands for the result of
`random.sample(available, quantity)`; legal executions constrain it to a
duplicate-free selection from the pool of the requested length.  Returns
(the Python pair `(tickets, purchase)`, with `{}` rendered as `none`) and
the updated state. -/
def approve_purchase (s : Storage) (purchase_id : String) (samp : List Int)
    (now : Nat) : (List Int × Option Purchase) × Storage :=
  match alGet s.pending purchase_id with
  | none => (([], none), s)
  | some purchase =>
      let s1 : Storage := { s with pending := alErase s.pending purchase_id }
      if ((s1.available_tickets.length : Int) < purchase.quantity) then
        -- Put it back and signal the caller to handle shortage.
        (([], none),
          { s1 with pending := alInsert s1.pending purchase_id purchase })
      else
        let available := removeEach s1.available_tickets samp
        let bucket := (alGet s1.user_tickets purchase.user_id).getD []
        let user_tickets :=
          alInsert s1.user_tickets purchase.user_id (bucket ++ samp)
        let purchase' : Purchase :=
  { purchase with
            status := "approved"
            tickets := samp
            resolved_at := some now }
        let approved := alInsert s1.approved purchase_id purchase'
        let base := (alGet s1.users purchase.user_id).getD
          (freshRecordOf purchase now)
        let base :=
  { base with
            purchases := base.purchases + 1
            total_tickets := base.total_tickets + purchase.quantity
            total_spent := base.total_spent + purchase.amount
            last_active := now }
        let base := if truthy purchase.phone_number then
            { base with phone_number := purchase.phone_number } else base
        let base :=
  { base with
            history := base.history ++ [{ purchase_id := purchase_id, tickets := samp, amount := purchase.amount, quantity := purchase.quantity, resolved_at := now }] }
        let users := alInsert s1.users purchase.user_id base
        ((samp, some purchase'),
  { s1 with
            available_tickets := available
            user_tickets := user_tickets
            approved := approved
            users := users })

/-- `reject_purchase`. -/
def reject_purchase (s : Storage) (purchase_id : String) (now : Nat) :
    Option Purchase × Storage :=
  match alGet s.pending purchase_id with
  | none => (none, s)
  | some purchase =>
      let pending := alErase s.pending purchase_id
      let purchase' : Purchase :=
        { purchase with status := "rejected", resolved_at := some now }
      let rejected := alInsert s.rejected purchase_id purchase'
      let users := match alGet s.users purchase.user_id with
        | some r =>
            alInsert s.users purchase.user_id { r with last_active := now }
        | none => s.users
      (some purchase',
        { s with pending := pending, rejected := rejected, users := users })

/-- `sorted(set(xs))`: the sorted list of the distinct elements. -/
def pySortedSet (l : List Int) : List Int :=
  l.dedup.insertionSort (· ≤ ·)

/-- `cancel_approved_purchase`: revoke an approved purchase, freeing
tickets and updating analytics. -/
def cancel_approved_purchase (s : Storage) (purchase_id : String)
    (now : Nat) : Option Purchase × Storage :=
  match alGet s.approved purchase_id with
  | none => (none, s)
  | some purchase =>
      let approved := alErase s.approved purchase_id
      let tickets := purchase.tickets
      -- Return tickets to availability.
      let available := pySortedSet (s.available_tickets ++ tickets)
      -- Remove tickets from user's bucket.
      let bucket := (alGet s.user_tickets purchase.user_id).getD []
      let user_tickets :=
        if bucket.isEmpty then s.user_tickets
        else alInsert s.user_tickets purchase.user_id
          (bucket.filter (fun t => decide (t ∉ tickets)))
      -- Adjust user stats.
      let users := match alGet s.users purchase.user_id with
        | none => s.users
        | some r =>
            let r :=
  { r with
                purchases := max 0 (r.purchases - 1)
                total_tickets := max 0 (r.total_tickets - tickets.length)
                total_spent := max 0 (r.total_spent - purchase.amount)
                last_active := now
                history := r.history ++ [{ purchase_id := purchase_id, tickets := tickets, amount := purchase.amount, quantity := purchase.quantity, resolved_at := now, status := some "cancelled" }] }
            alInsert s.users purchase.user_id r
      let purchase' : Purchase :=
        { purchase with status := "cancelled", cancelled_at := some now }
      (some purchase',
  { s with
          approved := approved
          available_tickets := available
          user_tickets := user_tickets
          users := users })

/-- `get_user_tickets`: the user's bucket, sorted ascending. -/
def get_user_tickets (s : Storage) (user_id : Int) : List Int :=
  ((alGet s.user_tickets user_id).getD []).insertionSort (· ≤ ·)

/-- The fields of the `get_detailed_stats` snapshot that the specification's
claims refer to.  The 24-hour activity counters, the float averages and the
top-5 leaderboard are presentation-only projections of the same snapshot
(wall-clock parsing and float division) and are not modelled. -/
structure DetailedStats where
  total_tickets : Nat
  remaining_tickets : Nat
  tickets_sold : Int
  total_revenue : Int
  pending_amount : Int
  pending_count : Nat
  approved_count : Nat
  rejected_count : Nat
  total_users : Nat
  total_purchases : Int
deriving Repr, DecidableEq

/-- `get_detailed_stats`: aggregates computed from one consistent snapshot.
`total_revenue` sums `total_spent` over the user records (not over the
approved map). -/
def get_detailed_stats (s : Storage) : DetailedStats :=
  let users := s.users.map (·.2)
  {
    total_tickets := s.total_tickets
    remaining_tickets := s.available_tickets.length
    tickets_sold := (users.map (·.total_tickets)).sum
    total_revenue := (users.map (·.total_spent)).sum
    pending_amount := ((s.pending.map (·.2)).map (·.amount)).sum
    pending_count := s.pending.length
    approved_count := s.approved.length
    rejected_count := s.rejected.length
    total_users := users.length
    total_purchases := (users.map (·.purchases)).sum }

/-- The sum of the `amount` fields of the approved purchases (the revenue
notion of `get_summary`). -/
def approvedAmountSum (s : Storage) : Int :=
  ((s.approved.map (·.2)).map (·.amount)).sum

/-! ## Template validation (`_validate_template` and `str.format`)

`_validate_template` substitutes a probe payload into the template with
Python's `str.format`; a `KeyError` (unknown placeholder) and any other
formatting failure are turned into `ValueError`s with distinct messages.
We embed the fragment of `str.format` the templates use: literal text,
doubled-brace escapes, and plain-name keyword replacement fields (ASCII
names that are not made of digits only).  Positional fields — an empty or
all-digit name such as the ones in "{}" and "{0}" — make CPython raise
`IndexError` when only keyword arguments are supplied, which
`_validate_template` maps to the generic format error, so they are sent
to the generic error branch here as well (CPython decides index-vs-keyword
by testing whether every character is a decimal digit, which on ASCII
names is exactly `Char.isDigit`).  Fields that would use attribute
access, indexing, conversion or a format spec (`.`, `[`, `!`, `:` inside
the braces) and fields with non-ASCII characters are outside the modelled
fragment and are conservatively folded into the generic format-error
branch; the theorems about well-formed templates restrict to the
plain-name fragment via `fieldNames`. -/

/-- Modelled from the spec: `reset_all_data` (missing from
`src/lottery_bot/storage.py`; only its caller `admin_settings_clear_confirm`
is present) "clears pool back to full range, and empties
pending/approved/rejected/user-ticket/user collections", and "the source
leaves templates and subscription config untouched on reset". -/
def reset_all_data (s : Storage) : Storage :=
  { s with
    available_tickets := initialTickets s.total_tickets
    pending := []
    approved := []
    rejected := []
    user_tickets := []
    users := [] }

/-- A parsed backup snapshot: the persisted-state document with every
top-level section optional, so that key-presence validation can be stated. -/
structure BackupDoc where
  available_tickets : Option (List Int) := none
  pending : Option (List (String × Purchase)) := none
  approved : Option (List (String × Purchase)) := none
  rejected : Option (List (String × Purchase)) := none
  user_tickets : Option (List (Int × List Int)) := none
  users : Option (List (Int × UserRecord)) := none
  meta : Option Meta := none
  subscriptions : Option Subscriptions := none
deriving Repr, DecidableEq

/-- `required_keys = ["available_tickets", "users", "approved", "pending"]`
from `admin_settings_handle_restore`. -/
def requiredBackupKeys : List String :=
  ["available_tickets", "users", "approved", "pending"]

/-- `k in data` for a top-level key of the snapshot document. -/
def backupHasKey (doc : BackupDoc) : String → Bool
  | "available_tickets" => doc.available_tickets.isSome
  | "pending" => doc.pending.isSome
  | "approved" => doc.approved.isSome
  | "rejected" => doc.rejected.isSome
  | "user_tickets" => doc.user_tickets.isSome
  | "users" => doc.users.isSome
  | "meta" => doc.meta.isSome
  | "subscriptions" => doc.subscriptions.isSome
  | _ => false

/-- `missing_keys = [k for k in required_keys if k not in data]`. -/
def missingBackupKeys (doc : BackupDoc) : List String :=
  requiredBackupKeys.filter (fun k => !(backupHasKey doc k))

/-- Modelled from the spec: `restore_from_backup` (missing from
`src/lottery_bot/storage.py`; only its caller
`admin_settings_handle_restore` is present) "replaces the entire in-memory
state with a previously serialized snapshot".  Absent optional sections
fall back to the defaults `_ensure_defaults` fills in (empty collections,
default meta/subscriptions), and the available pool gets the same
`sorted(set(...))` tidy-up `_load` applies. -/
def restore_from_backup (s : Storage) (doc : BackupDoc) : Storage :=
  { total_tickets := s.total_tickets
    available_tickets :=
      pySortedSet (doc.available_tickets.getD (initialTickets s.total_tickets))
    pending := doc.pending.getD []
    approved := doc.approved.getD []
    rejected := doc.rejected.getD []
    user_tickets := doc.user_tickets.getD []
    users := doc.users.getD []
    meta := doc.meta.getD (defaultMeta "")
    subscriptions := doc.subscriptions.getD { enabled := false, channels := [] } }

/-- The restore flow of `admin_settings_handle_restore` once the uploaded
document has parsed as JSON: validate the required top-level keys,
reporting the missing ones in a format-error message, else hand the
snapshot to the store's restore operation. -/
def admin_settings_handle_restore (s : Storage) (doc : BackupDoc) :
    Except String Storage :=
  let missing := missingBackupKeys doc
  if missing.isEmpty then .ok (restore_from_backup s doc)
  else .error ("Noto'g'ri format. Quyidagi kalitlar topilmadi: " ++
    String.intercalate ", " missing)

/-! ## Operation sequences

Traces of store operations.  The nondeterministic inputs the environment
supplies (`uuid4` purchase ids, `random.sample` selections, wall-clock
times, user input) are data of the operation; `legalOp` captures which
invocations the surrounding program can produce: freshly generated ids are
unique (`uuid4`), the sample is what `random.sample(available, quantity)`
can return (a duplicate-free selection from the pool of exactly the
requested length — it raises otherwise), and purchase quantity and ticket
price are positive (`receive_quantity` rejects non-digit or sub-1 input,
`Settings.ticket_price` is positive). -/

inductive StoreOp where
  | register (user_id : Int) (username full_name phone_number : Option String)
      (now : Nat)
  | create (purchase_id : String) (user_id : Int)
      (username full_name phone_number : Option String)
      (quantity ticket_price : Int) (receipt_file_id receipt_type : String)
      (now : Nat)
  | approve (purchase_id : String) (samp : List Int) (now : Nat)
  | reject (purchase_id : String) (now : Nat)
  | cancel (purchase_id : String) (now : Nat)
deriving Repr, DecidableEq

/-- Apply one store operation to the state. -/
def stepOp (s : Storage) : StoreOp → Storage
  | .register uid u f p now => register_user s uid u f p now
  | .create pid uid u f p q tp rf rt now =>
      (create_pending_purchase s pid uid u f p q tp rf rt now).2
  | .approve pid samp now => (approve_purchase s pid samp now).2
  | .reject pid now => (reject_purchase s pid now).2
  | .cancel pid now => (cancel_approved_purchase s pid now).2

/-- Which operation invocations the program can produce in state `s`. -/
def legalOp (s : Storage) : StoreOp → Bool
  | .register _ _ _ _ _ => true
  | .create pid _ _ _ _ q tp _ _ _ =>
      !(alGet s.pending pid).isSome && !(alGet s.approved pid).isSome &&
      decide (1 ≤ q) && decide (0 ≤ tp)
  | .approve pid samp _ =>
      match alGet s.pending pid with
      | none => true
      | some p =>
          decide ((s.available_tickets.length : Int) < p.quantity) ||
          (decide samp.Nodup &&
           samp.all (fun t => decide (t ∈ s.available_tickets)) &&
           decide ((samp.length : Int) = p.quantity))
  | .reject _ _ => true
  | .cancel _ _ => true

/-- The states reachable from a fresh store by legal operation sequences. -/
inductive Reachable (n : Nat) (card : String) : Storage → Prop where
  | init : Reachable n card (initialStorage n card)
  | step {s : Storage} {op : StoreOp} : Reachable n card s →
      legalOp s op = true → Reachable n card (stepOp s op)

/-! ## Association-list lemmas -/

/-! ## Sample states, invariant definitions and auxiliary records -/

/-- A pending purchase requesting more tickets than a 3-ticket pool holds,
for exercising the shortage branch. -/
def pC3 : Purchase :=
  {
    purchase_id := "p1"
    user_id := 1
    username := some "u"
    full_name := some "B"
    phone_number := none
    quantity := 5
    ticket_price := 100
    amount := 500
    receipt_file_id := "f"
    receipt_type := "photo"
    created_at := 0
    status := "pending" }

/-- A small state with one oversized pending purchase. -/
def sC3 : Storage := { initialStorage 3 "" with pending := [("p1", pC3)] }

/-- A user record with a stored username, for exhibiting that
`register_user` does not overwrite stored fields with absent arguments. -/
def recC9 : UserRecord :=
  {
    user_id := 1
    username := some "u0"
    full_name := some "Bob"
    phone_number := some "+998900000000"
    first_seen := 0
    last_active := 0
    purchases := 0
    total_tickets := 0
    total_spent := 0
    history := [] }

/-- A reachable-shaped state whose user 1 already has a record. -/
def sC9 : Storage := { initialStorage 3 "" with users := [(1, recC9)] }

/-- The purchase record as `approve_purchase` marks it approved. -/
def approvedMark (p : Purchase) (samp : List Int) (now : Nat) : Purchase :=
  { p with
    status := "approved"
    tickets := samp
    resolved_at := some now }

/-- The history entry `approve_purchase` appends. -/
def approveEntry (pid : String) (p : Purchase) (samp : List Int)
    (now : Nat) : HistoryEntry :=
  {
    purchase_id := pid
    tickets := samp
    amount := p.amount
    quantity := p.quantity
    resolved_at := now }

/-- A pending purchase for two tickets in a 3-ticket pool. -/
def pC2 : Purchase :=
  {
    purchase_id := "p2"
    user_id := 7
    username := some "u7"
    full_name := some "Bob"
    phone_number := some "+998900000000"
    quantity := 2
    ticket_price := 100
    amount := 200
    receipt_file_id := "f"
    receipt_type := "photo"
    created_at := 0
    status := "pending" }

/-- A zeroed record for user 7. -/
def rC2 : UserRecord :=
  {
    user_id := 7
    username := some "u7"
    full_name := some "Bob"
    phone_number := none
    first_seen := 0
    last_active := 0
    purchases := 0
    total_tickets := 0
    total_spent := 0
    history := [] }

/-- A state with pool `[1, 2, 3]`, one pending purchase and user 7
registered. -/
def sC2 : Storage :=
  { initialStorage 3 "" with
    pending := [("p2", pC2)]
    users := [(7, rC2)] }

/-- A state with pool `[1, 2, 3]` and one pending purchase, but no user
records at all. -/
def sC10 : Storage := { initialStorage 3 "" with pending := [("p2", pC2)] }

/-- The history entry `cancel_approved_purchase` appends. -/
def cancelEntry (pid : String) (p : Purchase) (now : Nat) : HistoryEntry :=
  {
    purchase_id := pid
    tickets := p.tickets
    amount := p.amount
    quantity := p.quantity
    resolved_at := now
    status := some "cancelled" }

/-- An approved purchase of tickets 2 and 3 for user 7. -/
def pC4 : Purchase :=
  { pC2 with
    status := "approved"
    tickets := [2, 3]
    resolved_at := some 5 }

/-- A state after such an approval: pool `[1]`, user 7 owns `[2, 3]`. -/
def sC4 : Storage :=
  { initialStorage 3 "" with
    available_tickets := [1]
    approved := [("p2", pC4)]
    user_tickets := [(7, [2, 3])]
    users := [(7, { rC2 with
      purchases := 1
      total_tickets := 2
      total_spent := 200 })] }

/-- A complete snapshot document. -/
def docC6ok : BackupDoc :=
  {
    available_tickets := some [2, 1, 2]
    users := some []
    approved := some []
    pending := some [] }

/-- A snapshot document missing the required `pending` field. -/
def docC6bad : BackupDoc :=
  {
    available_tickets := some [1]
    users := some []
    approved := some [] }

/-- The ticket lists of the approved purchases, in storage order. -/
def approvedTicketLists (s : Storage) : List (List Int) :=
  s.approved.map (fun pr => pr.2.tickets)

/-- The pool together with every approved purchase's tickets. -/
def poolPlusApproved (s : Storage) : List Int :=
  s.available_tickets ++ (approvedTicketLists s).flatten

/-- The sum of the approved amounts attributed to one user. -/
def userApprovedAmount (s : Storage) (uid : Int) : Int :=
  ((s.approved.filter (fun pr => decide (pr.2.user_id = uid))).map
    (fun pr => pr.2.amount)).sum

/-- The inductive invariant of the store: the pool plus the approved
ticket lists is a permutation of the full range; the purchase and user
dicts have duplicate-free keys; a pending id is never also an approved id;
every approved purchase's user has a record; each user's `total_spent`
equals the sum of that user's approved amounts; and all pending/approved
amounts are nonnegative. -/
structure Inv (s : Storage) : Prop where
  perm : (poolPlusApproved s).Perm (initialTickets s.total_tickets)
  pendingKeys : (alKeys s.pending).Nodup
  approvedKeys : (alKeys s.approved).Nodup
  usersKeys : (alKeys s.users).Nodup
  disj : ∀ k ∈ alKeys s.pending, k ∉ alKeys s.approved
  userRec : ∀ pr ∈ s.approved, (alGet s.users pr.2.user_id).isSome
  spent : ∀ u ∈ s.users, u.2.total_spent = userApprovedAmount s u.1
  pendingAmt : ∀ pr ∈ s.pending, 0 ≤ pr.2.amount
  approvedAmt : ∀ pr ∈ s.approved, 0 ≤ pr.2.amount

/-- The user record `approve_purchase` writes back: the existing record
(or a fresh one), counters bumped, phone refreshed, history extended. -/
def approveBase (s : Storage) (p : Purchase) (pid : String)
    (samp : List Int) (now : Nat) : UserRecord :=
  let base := (alGet s.users p.user_id).getD (freshRecordOf p now)
  let base :=
    { base with
      purchases := base.purchases + 1
      total_tickets := base.total_tickets + p.quantity
      total_spent := base.total_spent + p.amount
      last_active := now }
  let base := if truthy p.phone_number then
      { base with phone_number := p.phone_number } else base
  { base with history := base.history ++ [approveEntry pid p samp now] }

/-- The user-tickets map after a cancellation. -/
def cancelBucket (s : Storage) (p : Purchase) : List (Int × List Int) :=
  let bucket := (alGet s.user_tickets p.user_id).getD []
  if bucket.isEmpty then s.user_tickets
  else alInsert s.user_tickets p.user_id
    (bucket.filter (fun t => decide (t ∉ p.tickets)))

/-- The users map after a cancellation. -/
def cancelUsers (s : Storage) (p : Purchase) (pid : String) (now : Nat) :
    List (Int × UserRecord) :=
  match alGet s.users p.user_id with
  | none => s.users
  | some r =>
      alInsert s.users p.user_id
        { r with
          purchases := max 0 (r.purchases - 1)
          total_tickets := max 0 (r.total_tickets - p.tickets.length)
          total_spent := max 0 (r.total_spent - p.amount)
          last_active := now
          history := r.history ++ [cancelEntry pid p now] }

/-- The first operation of the concrete trace: user 1 submits a purchase
of two tickets. -/
def opC1a : StoreOp :=
  StoreOp.create "a" 1 (some "u") (some "B") none 2 100 "f" "photo" 0

/-- The second operation: the admin approves it with sample `[1, 3]`. -/
def opC1b : StoreOp := StoreOp.approve "a" [1, 3] 1

/-- The state after the concrete two-operation trace on a 3-ticket pool. -/
def sC1 : Storage := stepOp (stepOp (initialStorage 3 "") opC1a) opC1b

section AssocList

variable {κ α : Type} [DecidableEq κ]

theorem map_id_of_eq {β : Type} (l : List β) (f : β → β)
    (h : ∀ x ∈ l, f x = x) : l.map f = l := by
  induction l with
  | nil => rfl
  | cons a l ih =>
      simp only [List.map_cons, h a (by simp)]
      rw [ih (fun x hx => h x (by simp [hx]))]

theorem alGet_nil (k : κ) : alGet ([] : List (κ × α)) k = none := rfl

theorem alGet_cons (a : κ × α) (d : List (κ × α)) (k : κ) :
    alGet (a :: d) k = if a.1 = k then some a.2 else alGet d k := by
  by_cases h : a.1 = k <;> simp [alGet, List.find?_cons, h]

theorem alKeys_cons (a : κ × α) (d : List (κ × α)) :
    alKeys (a :: d) = a.1 :: alKeys d := rfl

theorem alErase_cons (a : κ × α) (d : List (κ × α)) (k : κ) :
    alErase (a :: d) k =
      if a.1 = k then alErase d k else a :: alErase d k := by
  by_cases h : a.1 = k <;> simp [alErase, List.filter_cons, h]

theorem alGet_append (d₁ d₂ : List (κ × α)) (k : κ) :
    alGet (d₁ ++ d₂) k = (alGet d₁ k).or (alGet d₂ k) := by
  induction d₁ with
  | nil => simp [alGet]
  | cons a d ih =>
      by_cases h : a.1 = k <;>
        simp [alGet_cons, h, ih, Option.or]

theorem alGet_replace (d : List (κ × α)) (k : κ) (v : α) (k' : κ) :
    alGet (d.map (fun p => if p.1 = k then (k, v) else p)) k' =
      if k' = k then (alGet d k).map (fun _ => v) else alGet d k' := by
  induction d with
  | nil => by_cases h : k' = k <;> simp [alGet, h]
  | cons a d ih =>
      by_cases hak : a.1 = k
      · by_cases hk : k' = k
        · subst hk; simp [hak, alGet_cons, ih]
        · simp only [List.map_cons, if_pos hak, alGet_cons, ih, if_neg hk]
          have h1 : ¬ (k = k') := fun h => hk h.symm
          have h2 : ¬ (a.1 = k') := by rw [hak]; exact h1
          simp [h1, h2]
      · by_cases hk : k' = k
        · subst hk; simp [hak, alGet_cons, ih]
        · simp only [List.map_cons, if_neg hak, alGet_cons, ih, if_neg hk]

theorem alGet_alInsert (d : List (κ × α)) (k : κ) (v : α) (k' : κ) :
    alGet (alInsert d k v) k' = if k' = k then some v else alGet d k' := by
  unfold alInsert
  by_cases h : (alGet d k).isSome
  · rw [if_pos h, alGet_replace]
    by_cases hk : k' = k
    · subst hk
      obtain ⟨w, hw⟩ := Option.isSome_iff_exists.mp h
      simp [hw]
    · simp [hk]
  · have hnone : alGet d k = none := Option.not_isSome_iff_eq_none.mp h
    rw [if_neg h, alGet_append]
    have hsingle : alGet [(k, v)] k' = if k' = k then some v else none := by
      by_cases hk : k' = k
      · subst hk; simp [alGet_cons]
      · have h1 : ¬ (k = k') := fun hh => hk hh.symm
        simp [alGet_cons, h1, hk, alGet_nil]
    rw [hsingle]
    by_cases hk : k' = k
    · subst hk; simp [hnone]
    · simp [hk]

theorem alGet_alInsert_self (d : List (κ × α)) (k : κ) (v : α) :
    alGet (alInsert d k v) k = some v := by
  simp [alGet_alInsert]

theorem alGet_alInsert_ne (d : List (κ × α)) (k : κ) (v : α) (k' : κ)
    (h : k' ≠ k) : alGet (alInsert d k v) k' = alGet d k' := by
  simp [alGet_alInsert, h]

theorem mem_alErase (d : List (κ × α)) (k : κ) (p : κ × α) :
    p ∈ alErase d k ↔ p ∈ d ∧ p.1 ≠ k := by
  simp [alErase]

theorem alGet_alErase (d : List (κ × α)) (k k' : κ) :
    alGet (alErase d k) k' = if k' = k then none else alGet d k' := by
  induction d with
  | nil => by_cases hk : k' = k <;> simp [alErase, alGet, hk]
  | cons a d ih =>
      rw [alErase_cons]
      by_cases hak : a.1 = k
      · rw [if_pos hak, ih, alGet_cons]
        by_cases hk : k' = k
        · simp [hk]
        · have h2 : ¬ (a.1 = k') := by rw [hak]; exact fun hh => hk hh.symm
          simp [hk, h2]
      · rw [if_neg hak, alGet_cons, alGet_cons, ih]
        by_cases hk : k' = k
        · subst hk
          simp [hak]
        · simp [hk]

theorem alKeys_replace (d : List (κ × α)) (k : κ) (v : α) :
    alKeys (d.map (fun p => if p.1 = k then (k, v) else p)) = alKeys d := by
  induction d with
  | nil => rfl
  | cons a d ih =>
      by_cases hak : a.1 = k
      · simp only [List.map_cons, if_pos hak, alKeys_cons, ih]
        rw [hak]
      · simp only [List.map_cons, if_neg hak, alKeys_cons, ih]

/-- The keys after a dict write: unchanged if the key was present, else the
key is appended. -/
theorem alKeys_alInsert (d : List (κ × α)) (k : κ) (v : α) :
    alKeys (alInsert d k v) =
      if (alGet d k).isSome then alKeys d else alKeys d ++ [k] := by
  unfold alInsert
  by_cases h : (alGet d k).isSome
  · simp [h, alKeys_replace]
  · simp [h, alKeys]

theorem alGet_isSome_iff (d : List (κ × α)) (k : κ) :
    (alGet d k).isSome ↔ k ∈ alKeys d := by
  induction d with
  | nil => simp [alGet, alKeys]
  | cons a d ih =>
      rw [alGet_cons, alKeys_cons]
      by_cases hak : a.1 = k
      · simp [hak]
      · have hka : ¬ (k = a.1) := fun hh => hak hh.symm
        simp [hak, ih, hka]

theorem alKeys_nodup_alInsert (d : List (κ × α)) (k : κ) (v : α)
    (h : (alKeys d).Nodup) : (alKeys (alInsert d k v)).Nodup := by
  rw [alKeys_alInsert]
  by_cases hs : (alGet d k).isSome
  · simpa [hs] using h
  · have hk : k ∉ alKeys d := fun hm => hs ((alGet_isSome_iff d k).mpr hm)
    simp [hs, List.nodup_append, h, hk]

theorem alKeys_alErase_sublist (d : List (κ × α)) (k : κ) :
    (alKeys (alErase d k)).Sublist (alKeys d) := by
  unfold alKeys alErase
  exact (List.filter_sublist d).map _

theorem alKeys_nodup_alErase (d : List (κ × α)) (k : κ)
    (h : (alKeys d).Nodup) : (alKeys (alErase d k)).Nodup :=
  h.sublist (alKeys_alErase_sublist d k)

theorem alErase_eq_self_of_not_mem (d : List (κ × α)) (k : κ)
    (h : k ∉ alKeys d) : alErase d k = d := by
  unfold alErase
  apply List.filter_eq_self.mpr
  intro p hp
  have hp1 : p.1 ≠ k := by
    intro hpk
    exact h (by simpa [alKeys, hpk] using List.mem_map_of_mem Prod.fst hp)
  simpa using hp1

/-- Extracting a present binding: a dict with duplicate-free keys is a
permutation of the binding consed onto the dict without that key. -/
theorem perm_cons_alErase (d : List (κ × α)) (k : κ) (v : α)
    (hnd : (alKeys d).Nodup) (h : alGet d k = some v) :
    d.Perm ((k, v) :: alErase d k) := by
  induction d with
  | nil => simp [alGet] at h
  | cons a d ih =>
      rw [alKeys_cons, List.nodup_cons] at hnd
      rw [alGet_cons] at h
      rw [alErase_cons]
      by_cases hak : a.1 = k
      · rw [if_pos hak] at h ⊢
        injection h with hv
        have hknd : k ∉ alKeys d := hak ▸ hnd.1
        rw [alErase_eq_self_of_not_mem d k hknd]
        have ha : a = (k, v) := Prod.ext hak hv
        rw [ha]
      · rw [if_neg hak] at h ⊢
        refine ((ih hnd.2 h).cons a).trans ?_
        exact List.Perm.swap _ _ _

/-- Writing over a present binding: a permutation of the new binding consed
onto the dict without that key. -/
theorem perm_alInsert_of_present (d : List (κ × α)) (k : κ) (v w : α)
    (hnd : (alKeys d).Nodup) (h : alGet d k = some w) :
    (alInsert d k v).Perm ((k, v) :: alErase d k) := by
  induction d with
  | nil => simp [alGet] at h
  | cons a d ih =>
      rw [alKeys_cons, List.nodup_cons] at hnd
      have hsome : (alGet (a :: d) k).isSome := by
        rw [alGet_cons] at h ⊢
        by_cases hak : a.1 = k <;> simp [hak] at h ⊢ <;> simp [h]
      unfold alInsert
      rw [if_pos hsome, alErase_cons]
      rw [alGet_cons] at h
      by_cases hak : a.1 = k
      · rw [if_pos hak] at h ⊢
        have hknd : k ∉ alKeys d := hak ▸ hnd.1
        have hrep : d.map (fun p => if p.1 = k then (k, v) else p) = d := by
          apply map_id_of_eq
          intro p hp
          have hp1 : p.1 ≠ k := by
            intro hpk
            exact hknd (by simpa [alKeys, hpk] using List.mem_map_of_mem Prod.fst hp)
          simp [hp1]
        rw [alErase_eq_self_of_not_mem d k hknd]
        simp only [List.map_cons, if_pos hak, hrep]
        exact List.Perm.refl _
      · rw [if_neg hak] at h ⊢
        have hsome' : (alGet d k).isSome := by simp [h]
        have ihh := ih hnd.2 h
        unfold alInsert at ihh
        rw [if_pos hsome'] at ihh
        simp only [List.map_cons, if_neg hak]
        refine (ihh.cons a).trans ?_
        exact List.Perm.swap _ _ _

/-- Writing a fresh binding appends it. -/
theorem alInsert_of_absent (d : List (κ × α)) (k : κ) (v : α)
    (h : alGet d k = none) : alInsert d k v = d ++ [(k, v)] := by
  unfold alInsert
  simp [h]

end AssocList

/-! ## Pool-manipulation lemmas -/

theorem removeEach_cons (l : List Int) (t : Int) (ts : List Int) :
    removeEach l (t :: ts) = removeEach (l.erase t) ts := rfl

/-- Removing a duplicate-free selection of pool members and appending it
back is a permutation of the pool. -/
theorem perm_removeEach_append (l samp : List Int) (hnd : samp.Nodup)
    (hsub : ∀ t ∈ samp, t ∈ l) : (removeEach l samp ++ samp).Perm l := by
  induction samp generalizing l with
  | nil => simp [removeEach]
  | cons t ts ih =>
      rw [removeEach_cons]
      obtain ⟨hts, hnd'⟩ := List.nodup_cons.mp hnd
      have hsub' : ∀ x ∈ ts, x ∈ l.erase t := by
        intro x hx
        have hxt : x ≠ t := fun h => hts (h ▸ hx)
        exact (List.mem_erase_of_ne hxt).mpr (hsub x (List.mem_cons_of_mem t hx))
      refine List.perm_middle.trans ?_
      refine ((ih (l.erase t) hnd' hsub').cons t).trans ?_
      exact (List.perm_cons_erase (hsub t (List.mem_cons_self t ts))).symm

theorem removeEach_length (l samp : List Int) (hnd : samp.Nodup)
    (hsub : ∀ t ∈ samp, t ∈ l) :
    (removeEach l samp).length + samp.length = l.length := by
  have h := (perm_removeEach_append l samp hnd hsub).length_eq
  simpa [List.length_append] using h

theorem mem_removeEach (l samp : List Int) (t : Int) (hl : l.Nodup)
    (hnd : samp.Nodup) (hsub : ∀ x ∈ samp, x ∈ l) :
    t ∈ removeEach l samp ↔ t ∈ l ∧ t ∉ samp := by
  have hperm := perm_removeEach_append l samp hnd hsub
  have hnodup : (removeEach l samp ++ samp).Nodup := hperm.nodup_iff.mpr hl
  obtain ⟨-, -, hdisj⟩ := List.nodup_append.mp hnodup
  constructor
  · intro h
    exact ⟨hperm.mem_iff.mp (List.mem_append_left _ h), fun hs => hdisj h hs⟩
  · rintro ⟨hmem, hns⟩
    rcases List.mem_append.mp (hperm.mem_iff.mpr hmem) with h | h
    · exact h
    · exact absurd h hns

theorem pySortedSet_sorted (l : List Int) :
    (pySortedSet l).Sorted (· ≤ ·) :=
  List.sorted_insertionSort _ _

theorem pySortedSet_perm_dedup (l : List Int) :
    (pySortedSet l).Perm l.dedup :=
  List.perm_insertionSort _ _

theorem pySortedSet_nodup (l : List Int) : (pySortedSet l).Nodup :=
  (pySortedSet_perm_dedup l).nodup_iff.mpr (List.nodup_dedup l)

theorem mem_pySortedSet (l : List Int) (t : Int) :
    t ∈ pySortedSet l ↔ t ∈ l := by
  rw [(pySortedSet_perm_dedup l).mem_iff, List.mem_dedup]

/-! ## C5 — reset -/

/-- C5: `reset_all_data` clears the available pool back to the full range
`1..N` and empties the pending, approved, rejected, user-ticket and user
collections, while leaving configuration state (message templates, card
number, subscription settings) untouched. -/
theorem c5_reset_all_data (s : Storage) :
    (reset_all_data s).available_tickets = initialTickets s.total_tickets ∧
    (reset_all_data s).pending = [] ∧
    (reset_all_data s).approved = [] ∧
    (reset_all_data s).rejected = [] ∧
    (reset_all_data s).user_tickets = [] ∧
    (reset_all_data s).users = [] ∧
    (reset_all_data s).meta = s.meta ∧
    (reset_all_data s).subscriptions = s.subscriptions ∧
    (reset_all_data s).total_tickets = s.total_tickets :=
  ⟨rfl, rfl, rfl, rfl, rfl, rfl, rfl, rfl, rfl⟩

/-! ## C3 — approve error branches -/

/-- C3: `approve_purchase` on an id that does not name a pending purchase
returns the empty result and leaves the state unchanged; on a pending
purchase whose quantity exceeds the pool size it returns the empty result,
leaves the pool unchanged, and keeps the purchase in the pending collection
with all its fields unchanged (approved, rejected, users and user-ticket
collections untouched). -/
theorem c3_approve_error_branches (s : Storage) (pid : String)
    (samp : List Int) (now : Nat) :
    (alGet s.pending pid = none →
      approve_purchase s pid samp now = (([], none), s)) ∧
    (∀ p : Purchase, alGet s.pending pid = some p →
      (s.available_tickets.length : Int) < p.quantity →
      (approve_purchase s pid samp now).1 = ([], none) ∧
      (approve_purchase s pid samp now).2.available_tickets =
        s.available_tickets ∧
      alGet (approve_purchase s pid samp now).2.pending pid = some p ∧
      (∀ k, k ≠ pid →
        alGet (approve_purchase s pid samp now).2.pending k =
          alGet s.pending k) ∧
      (approve_purchase s pid samp now).2.approved = s.approved ∧
      (approve_purchase s pid samp now).2.rejected = s.rejected ∧
      (approve_purchase s pid samp now).2.users = s.users ∧
      (approve_purchase s pid samp now).2.user_tickets = s.user_tickets) := by
  constructor
  · intro h
    simp [approve_purchase, h]
  · intro p hp hlt
    refine ⟨?_, ?_, ?_, ?_, ?_, ?_, ?_, ?_⟩
    · simp [approve_purchase, hp, hlt]
    · simp [approve_purchase, hp, hlt]
    · simp [approve_purchase, hp, hlt, alGet_alInsert]
    · intro k hk
      simp [approve_purchase, hp, hlt, alGet_alInsert, alGet_alErase, hk]
    · simp [approve_purchase, hp, hlt]
    · simp [approve_purchase, hp, hlt]
    · simp [approve_purchase, hp, hlt]
    · simp [approve_purchase, hp, hlt]

/-- C3 witness: the not-found branch and the shortage branch at concrete
inputs. -/
theorem c3_approve_error_branches_witness :
    approve_purchase sC3 "zz" [] 1 = (([], none), sC3) ∧
    (approve_purchase sC3 "p1" [] 1).1 = ([], none) ∧
    (approve_purchase sC3 "p1" [] 1).2.available_tickets =
      sC3.available_tickets ∧
    alGet (approve_purchase sC3 "p1" [] 1).2.pending "p1" = some pC3 := by
  refine ⟨(c3_approve_error_branches sC3 "zz" [] 1).1 (by decide), ?_⟩
  have h := (c3_approve_error_branches sC3 "p1" [] 1).2 pC3 (by decide)
    (by decide)
  exact ⟨h.1, h.2.1, h.2.2.1⟩

/-! ## C9 — register_user (corrected) -/

/-- C9, counterexample to the claim as stated: calling `register_user` with
`username = None` on a user whose stored username is `"u0"` does not update
the stored username to the supplied value — the stored `"u0"` survives, so
the update of username/display-name is conditional, not unconditional. -/
theorem c9_counterexample :
    ¬ ((alGet (register_user sC9 1 none none none 5).users 1).map
        UserRecord.username = some none) := by decide

/-- C9 (amended): `register_user` is an idempotent upsert that always
succeeds: if no record exists it creates a `UserRecord` with counters
zeroed; otherwise it refreshes the last-active timestamp and overwrites the
stored username when one is supplied (non-`None`, including the empty
string), but overwrites the stored display name and the stored phone only
when a non-empty value is supplied; records of other users are untouched. -/
theorem c9_register_user (s : Storage) (uid : Int)
    (username full_name phone_number : Option String) (now : Nat) :
    (alGet s.users uid = none →
      alGet (register_user s uid username full_name phone_number now).users
          uid = some
        {
          user_id := uid
          username := username
          full_name := full_name
          phone_number := phone_number
          first_seen := now
          last_active := now
          purchases := 0
          total_tickets := 0
          total_spent := 0
          history := [] }) ∧
    (∀ r : UserRecord, alGet s.users uid = some r →
      alGet (register_user s uid username full_name phone_number now).users
          uid = some
        { r with
          username := if username.isSome then username else r.username
          full_name := if truthy full_name then full_name else r.full_name
          phone_number :=
            if truthy phone_number then phone_number else r.phone_number
          last_active := now }) ∧
    (∀ k, k ≠ uid →
      alGet (register_user s uid username full_name phone_number now).users
          k = alGet s.users k) := by
  refine ⟨?_, ?_, ?_⟩
  · intro h
    simp only [register_user, h]
    exact alGet_alInsert_self _ _ _
  · intro r hr
    simp only [register_user, hr]
    rw [alGet_alInsert_self]
    cases username <;>
      by_cases hf : truthy full_name <;>
      by_cases hp : truthy phone_number <;>
      simp [hf, hp]
  · intro k hk
    unfold register_user
    cases h : alGet s.users uid <;> simp [alGet_alInsert_ne _ _ _ _ hk]

/-- C9 witness: the amended theorem applied to a concrete state, both for a
missing record (fresh zeroed record) and for the stored record of `sC9`. -/
theorem c9_register_user_witness :
    alGet (register_user sC9 2 (some "u2") none none 7).users 2 = some
      {
        user_id := 2
        username := some "u2"
        full_name := none
        phone_number := none
        first_seen := 7
        last_active := 7
        purchases := 0
        total_tickets := 0
        total_spent := 0
        history := [] } ∧
    alGet (register_user sC9 1 none none (some "+998911111111") 9).users 1 =
      some { recC9 with
        phone_number := some "+998911111111"
        last_active := 9 } := by
  constructor
  · exact (c9_register_user sC9 2 (some "u2") none none 7).1 (by decide)
  · have h := ((c9_register_user sC9 1 none none
      (some "+998911111111") 9).2.1) recC9 (by decide)
    simpa using h

/-! ## Formatting lemmas for C7 -/

/-- C2: on a pending purchase whose quantity the pool can satisfy,
`approve_purchase` returns exactly the sampled `quantity`-many distinct
pool tickets (never fewer), removes exactly those from the pool, appends
them to the user's owned-ticket list, marks the purchase approved with the
ticket list and a resolution timestamp, moves it from pending to approved,
and bumps the user's aggregates by +1 purchase, +quantity tickets,
+amount spend with a history entry appended. -/
theorem c2_approve_success (s : Storage) (pid : String) (p : Purchase)
    (samp : List Int) (now : Nat) (r : UserRecord)
    (hp : alGet s.pending pid = some p)
    (hlt : ¬ (s.available_tickets.length : Int) < p.quantity)
    (hlen : (samp.length : Int) = p.quantity)
    (hnd : samp.Nodup)
    (hsub : ∀ t ∈ samp, t ∈ s.available_tickets)
    (hpool : s.available_tickets.Nodup)
    (hr : alGet s.users p.user_id = some r) :
    (approve_purchase s pid samp now).1.1 = samp ∧
    (approve_purchase s pid samp now).1.2 = some (approvedMark p samp now) ∧
    ((approve_purchase s pid samp now).2.available_tickets.length : Int) +
      p.quantity = s.available_tickets.length ∧
    (∀ t : Int, t ∈ (approve_purchase s pid samp now).2.available_tickets ↔
      (t ∈ s.available_tickets ∧ t ∉ samp)) ∧
    alGet (approve_purchase s pid samp now).2.pending pid = none ∧
    alGet (approve_purchase s pid samp now).2.approved pid =
      some (approvedMark p samp now) ∧
    (alGet (approve_purchase s pid samp now).2.user_tickets p.user_id).getD
      [] = (alGet s.user_tickets p.user_id).getD [] ++ samp ∧
    alGet (approve_purchase s pid samp now).2.users p.user_id = some
      { r with
        purchases := r.purchases + 1
        total_tickets := r.total_tickets + p.quantity
        total_spent := r.total_spent + p.amount
        last_active := now
        phone_number :=
          if truthy p.phone_number then p.phone_number else r.phone_number
        history := r.history ++ [approveEntry pid p samp now] } := by
  refine ⟨?_, ?_, ?_, ?_, ?_, ?_, ?_, ?_⟩
  · simp [approve_purchase, hp, hlt]
  · simp [approve_purchase, hp, hlt, approvedMark]
  · have hNat := removeEach_length s.available_tickets samp hnd hsub
    simp only [approve_purchase, hp, hlt, if_neg hlt]
    rw [← hlen]
    exact_mod_cast hNat
  · intro t
    simp only [approve_purchase, hp, hlt, if_neg hlt]
    exact mem_removeEach s.available_tickets samp t hpool hnd hsub
  · simp [approve_purchase, hp, hlt, alGet_alErase]
  · simp [approve_purchase, hp, hlt, alGet_alInsert, approvedMark]
  · simp [approve_purchase, hp, hlt, alGet_alInsert]
  · simp only [approve_purchase, hp, hlt, if_neg hlt, alGet_alInsert_self]
    rw [hr]
    by_cases hph : truthy p.phone_number <;>
      simp [hph, approveEntry, alGet_alInsert_self]

/-- C10: approving a pending purchase of a user with no `UserRecord`
creates one from the purchase's contact fields whose counters reflect
exactly this approval, with a one-entry history; the approval itself
succeeds and returns the sampled tickets. -/
theorem c10_approve_creates_record (s : Storage) (pid : String)
    (p : Purchase) (samp : List Int) (now : Nat)
    (hp : alGet s.pending pid = some p)
    (hlt : ¬ (s.available_tickets.length : Int) < p.quantity)
    (hr : alGet s.users p.user_id = none) :
    (approve_purchase s pid samp now).1.1 = samp ∧
    (approve_purchase s pid samp now).1.2 = some (approvedMark p samp now) ∧
    alGet (approve_purchase s pid samp now).2.users p.user_id = some
      {
        user_id := p.user_id
        username := p.username
        full_name := p.full_name
        phone_number := p.phone_number
        first_seen := now
        last_active := now
        purchases := 1
        total_tickets := p.quantity
        total_spent := p.amount
        history := [approveEntry pid p samp now] } := by
  refine ⟨?_, ?_, ?_⟩
  · simp [approve_purchase, hp, hlt]
  · simp [approve_purchase, hp, hlt, approvedMark]
  · simp only [approve_purchase, hp, hlt, if_neg hlt, alGet_alInsert_self]
    rw [hr]
    by_cases hph : truthy p.phone_number <;>
      simp [hph, freshRecordOf, approveEntry, alGet_alInsert_self]

/-- C2 witness: approving the concrete purchase with sample `[3, 1]`. -/
theorem c2_approve_success_witness :
    (approve_purchase sC2 "p2" [3, 1] 11).1.1 = [3, 1] ∧
    ((approve_purchase sC2 "p2" [3, 1] 11).2.available_tickets.length : Int)
      + pC2.quantity = sC2.available_tickets.length ∧
    (2 ∈ (approve_purchase sC2 "p2" [3, 1] 11).2.available_tickets ↔
      (2 ∈ sC2.available_tickets ∧ (2 : Int) ∉ [(3 : Int), 1])) ∧
    alGet (approve_purchase sC2 "p2" [3, 1] 11).2.users 7 = some
      { rC2 with
        purchases := 1
        total_tickets := 2
        total_spent := 200
        last_active := 11
        phone_number := some "+998900000000"
        history := [approveEntry "p2" pC2 [3, 1] 11] } := by
  have h := c2_approve_success sC2 "p2" pC2 [3, 1] 11 rC2 (by decide)
    (by decide) (by decide) (by decide) (by decide) (by decide) (by decide)
  refine ⟨h.1, h.2.2.1, h.2.2.2.1 2, ?_⟩
  exact h.2.2.2.2.2.2.2.trans (by decide)

/-- C10 witness: approving the same purchase when user 7 has no record. -/
theorem c10_approve_creates_record_witness :
    (approve_purchase sC10 "p2" [3, 1] 11).1.1 = [3, 1] ∧
    alGet (approve_purchase sC10 "p2" [3, 1] 11).2.users 7 = some
      {
        user_id := 7
        username := some "u7"
        full_name := some "Bob"
        phone_number := some "+998900000000"
        first_seen := 11
        last_active := 11
        purchases := 1
        total_tickets := 2
        total_spent := 200
        history := [approveEntry "p2" pC2 [3, 1] 11] } := by
  have h := c10_approve_creates_record sC10 "p2" pC2 [3, 1] 11 (by decide)
    (by decide) (by decide)
  refine ⟨h.1, ?_⟩
  exact h.2.2.trans (by decide)

/-! ## C4 — cancel semantics -/

/-- Cancelling an id that is not in the approved collection is a no-op. -/
theorem cancel_not_found (s : Storage) (pid : String) (now : Nat)
    (h : alGet s.approved pid = none) :
    cancel_approved_purchase s pid now = (none, s) := by
  simp [cancel_approved_purchase, h]

/-- C4: cancelling an approved purchase removes it from the approved
collection, returns exactly its assigned tickets to the pool (which stays
sorted and duplicate-free), removes exactly those numbers from the user's
owned-ticket list, decrements the user's counters clamped at zero,
appends a cancelled history entry, and returns the purchase marked
cancelled with a cancellation timestamp; a second call with the same id
returns the empty not-found result and changes nothing. -/
theorem c4_cancel_semantics (s : Storage) (pid : String) (p : Purchase)
    (now : Nat) (r : UserRecord)
    (hp : alGet s.approved pid = some p)
    (hr : alGet s.users p.user_id = some r) :
    (cancel_approved_purchase s pid now).1 = some
      { p with status := "cancelled", cancelled_at := some now } ∧
    alGet (cancel_approved_purchase s pid now).2.approved pid = none ∧
    (∀ k, k ≠ pid → alGet (cancel_approved_purchase s pid now).2.approved k
      = alGet s.approved k) ∧
    (cancel_approved_purchase s pid now).2.available_tickets.Sorted
      (· ≤ ·) ∧
    (cancel_approved_purchase s pid now).2.available_tickets.Nodup ∧
    (∀ t : Int, t ∈ (cancel_approved_purchase s pid now).2.available_tickets
      ↔ (t ∈ s.available_tickets ∨ t ∈ p.tickets)) ∧
    (alGet (cancel_approved_purchase s pid now).2.user_tickets p.user_id).getD
      [] = ((alGet s.user_tickets p.user_id).getD []).filter
        (fun t => decide (t ∉ p.tickets)) ∧
    alGet (cancel_approved_purchase s pid now).2.users p.user_id = some
      { r with
        purchases := max 0 (r.purchases - 1)
        total_tickets := max 0 (r.total_tickets - p.tickets.length)
        total_spent := max 0 (r.total_spent - p.amount)
        last_active := now
        history := r.history ++ [cancelEntry pid p now] } ∧
    (∀ now' : Nat, cancel_approved_purchase
      (cancel_approved_purchase s pid now).2 pid now' =
        (none, (cancel_approved_purchase s pid now).2)) := by
  have h2 : alGet (cancel_approved_purchase s pid now).2.approved pid =
      none := by
    simp [cancel_approved_purchase, hp, alGet_alErase]
  refine ⟨?_, h2, ?_, ?_, ?_, ?_, ?_, ?_, ?_⟩
  · simp [cancel_approved_purchase, hp]
  · intro k hk
    simp [cancel_approved_purchase, hp, alGet_alErase, hk]
  · simp only [cancel_approved_purchase, hp]
    exact pySortedSet_sorted _
  · simp only [cancel_approved_purchase, hp]
    exact pySortedSet_nodup _
  · intro t
    simp only [cancel_approved_purchase, hp]
    rw [mem_pySortedSet, List.mem_append]
  · by_cases hb : ((alGet s.user_tickets p.user_id).getD []).isEmpty
    · have hnil : (alGet s.user_tickets p.user_id).getD [] = [] :=
        List.isEmpty_iff.mp hb
      simp [cancel_approved_purchase, hp, hb, hnil]
    · simp [cancel_approved_purchase, hp, hb, alGet_alInsert]
  · simp only [cancel_approved_purchase, hp]
    rw [hr]
    simp [alGet_alInsert_self, cancelEntry]
  · intro now'
    exact cancel_not_found _ _ _ h2

/-- C4 witness: cancelling the concrete approved purchase. -/
theorem c4_cancel_semantics_witness :
    (cancel_approved_purchase sC4 "p2" 13).1 = some
      { pC4 with status := "cancelled", cancelled_at := some 13 } ∧
    alGet (cancel_approved_purchase sC4 "p2" 13).2.approved "p2" = none ∧
    (cancel_approved_purchase sC4 "p2" 13).2.available_tickets.Nodup ∧
    (2 ∈ (cancel_approved_purchase sC4 "p2" 13).2.available_tickets ↔
      (2 ∈ sC4.available_tickets ∨ 2 ∈ pC4.tickets)) ∧
    (alGet (cancel_approved_purchase sC4 "p2" 13).2.user_tickets 7).getD []
      = ((alGet sC4.user_tickets 7).getD []).filter
        (fun t => decide (t ∉ pC4.tickets)) ∧
    cancel_approved_purchase (cancel_approved_purchase sC4 "p2" 13).2 "p2" 14
      = (none, (cancel_approved_purchase sC4 "p2" 13).2) := by
  have h := c4_cancel_semantics sC4 "p2" pC4 13
    { rC2 with purchases := 1, total_tickets := 2, total_spent := 200 }
    (by decide) (by decide)
  exact ⟨h.1, h.2.1, h.2.2.2.2.1, h.2.2.2.2.2.1 2, h.2.2.2.2.2.2.1,
    h.2.2.2.2.2.2.2.2 14⟩

/-! ## C6 — restore validation -/

/-- C6: the restore flow replaces the in-memory state with the snapshot
after validating that the snapshot has the required top-level fields
`available_tickets`, `users`, `approved` and `pending`, and fails with a
format error naming the missing fields when any of them is absent. -/
theorem c6_restore_validates (s : Storage) (doc : BackupDoc) :
    ((doc.available_tickets.isSome ∧ doc.users.isSome ∧
      doc.approved.isSome ∧ doc.pending.isSome) →
      admin_settings_handle_restore s doc = .ok (restore_from_backup s doc) ∧
      (restore_from_backup s doc).available_tickets =
        pySortedSet (doc.available_tickets.getD
          (initialTickets s.total_tickets)) ∧
      (restore_from_backup s doc).pending = doc.pending.getD [] ∧
      (restore_from_backup s doc).approved = doc.approved.getD [] ∧
      (restore_from_backup s doc).rejected = doc.rejected.getD [] ∧
      (restore_from_backup s doc).user_tickets = doc.user_tickets.getD [] ∧
      (restore_from_backup s doc).users = doc.users.getD []) ∧
    (¬ (doc.available_tickets.isSome ∧ doc.users.isSome ∧
        doc.approved.isSome ∧ doc.pending.isSome) →
      admin_settings_handle_restore s doc =
        .error ("Noto'g'ri format. Quyidagi kalitlar topilmadi: " ++
          String.intercalate ", " (missingBackupKeys doc))) := by
  constructor
  · intro h
    obtain ⟨h1, h2, h3, h4⟩ := h
    have hempty : (missingBackupKeys doc).isEmpty = true := by
      simp [missingBackupKeys, requiredBackupKeys, backupHasKey, h1, h2, h3, h4]
    refine ⟨?_, rfl, rfl, rfl, rfl, rfl, rfl⟩
    simp [admin_settings_handle_restore, hempty]
  · intro h
    have hne : (missingBackupKeys doc).isEmpty = false := by
      by_contra hc
      have hempty : (missingBackupKeys doc).isEmpty = true := by
        cases hmk : (missingBackupKeys doc).isEmpty
        · exact absurd hmk hc
        · rfl
      have : ∀ k ∈ requiredBackupKeys, backupHasKey doc k = true := by
        intro k hkmem
        by_contra hkc
        have hmem : k ∈ missingBackupKeys doc := by
          simp [missingBackupKeys, List.mem_filter, hkmem]
          cases hb : backupHasKey doc k
          · rfl
          · exact absurd hb hkc
        rw [List.isEmpty_iff] at hempty
        simp [hempty] at hmem
      exact h ⟨by simpa using this "available_tickets" (by simp [requiredBackupKeys]),
        by simpa using this "users" (by simp [requiredBackupKeys]),
        by simpa using this "approved" (by simp [requiredBackupKeys]),
        by simpa using this "pending" (by simp [requiredBackupKeys])⟩
    simp [admin_settings_handle_restore, hne]

/-- C6 witness: a complete snapshot restores, a snapshot missing `pending`
fails with the format error naming it. -/
theorem c6_restore_validates_witness :
    admin_settings_handle_restore (initialStorage 2 "") docC6ok =
      .ok (restore_from_backup (initialStorage 2 "") docC6ok) ∧
    admin_settings_handle_restore (initialStorage 2 "") docC6bad =
      .error ("Noto'g'ri format. Quyidagi kalitlar topilmadi: " ++
        String.intercalate ", " (missingBackupKeys docC6bad)) := by
  constructor
  · exact ((c6_restore_validates (initialStorage 2 "") docC6ok).1
      (by decide)).1
  · exact (c6_restore_validates (initialStorage 2 "") docC6bad).2 (by decide)

/-! ## The reachability invariant for C1 and C8 -/

theorem initialTickets_nodup (n : Nat) : (initialTickets n).Nodup := by
  unfold initialTickets
  refine List.Nodup.map ?_ (List.nodup_range n)
  intro a b hab
  have hab' : (a : Int) + 1 = (b : Int) + 1 := hab
  omega

theorem initialTickets_length (n : Nat) : (initialTickets n).length = n := by
  rw [initialTickets, List.length_map, List.length_range]

/-- A permutation of outer lists gives a permutation of their
concatenations. -/
theorem perm_flatten {β : Type} {l₁ l₂ : List (List β)} (h : l₁.Perm l₂) :
    l₁.flatten.Perm l₂.flatten := by
  induction h with
  | nil => exact List.Perm.refl _
  | cons x _ ih =>
      simpa using ih.append_left x
  | swap x y l =>
      simp only [List.flatten_cons]
      rw [← List.append_assoc, ← List.append_assoc]
      exact (List.perm_append_comm).append_right _
  | trans _ _ ih1 ih2 => exact ih1.trans ih2

/-- Splitting a mapped sum along a predicate. -/
theorem sum_map_filter_split {β : Type} (l : List β) (p : β → Bool)
    (f : β → Int) :
    ((l.filter p).map f).sum + ((l.filter (fun x => !(p x))).map f).sum =
      (l.map f).sum := by
  induction l with
  | nil => simp
  | cons a l ih =>
      by_cases hp : p a = true
      · have hq : (!p a) = false := by simp [hp]
        simp [List.filter_cons, hp, hq]
        omega
      · have hp' : p a = false := by simpa using hp
        have hq : (!p a) = true := by simp [hp']
        simp [List.filter_cons, hp', hq]
        omega

section AssocListMore

variable {κ α : Type} [DecidableEq κ]

theorem mem_alKeys_of_mem {d : List (κ × α)} {p : κ × α} (h : p ∈ d) :
    p.1 ∈ alKeys d := by
  simpa [alKeys] using List.mem_map_of_mem Prod.fst h

theorem alGet_mem {d : List (κ × α)} {k : κ} {v : α}
    (h : alGet d k = some v) : (k, v) ∈ d := by
  unfold alGet at h
  cases hf : d.find? (fun p => decide (p.1 = k)) with
  | none => rw [hf] at h; simp at h
  | some p =>
      rw [hf] at h
      simp at h
      have hp := List.find?_some hf
      have hmem := List.mem_of_find?_eq_some hf
      have hk : p.1 = k := by simpa using hp
      have : p = (k, v) := Prod.ext hk h
      rw [← this]
      exact hmem

theorem alGet_eq_none_iff (d : List (κ × α)) (k : κ) :
    alGet d k = none ↔ k ∉ alKeys d := by
  rw [← alGet_isSome_iff]
  cases alGet d k <;> simp

theorem mem_alKeys_alErase {d : List (κ × α)} {k k' : κ}
    (h : k' ∈ alKeys (alErase d k)) : k' ∈ alKeys d ∧ k' ≠ k := by
  simp only [alKeys, List.mem_map] at h
  obtain ⟨p, hp, hpk⟩ := h
  rw [mem_alErase] at hp
  exact ⟨by simpa [alKeys, ← hpk] using List.mem_map_of_mem Prod.fst hp.1,
    hpk ▸ hp.2⟩

/-- Membership in a dict after a write, when the keys are duplicate-free:
the new binding, or an old binding at a different key. -/
theorem mem_alInsert_iff (d : List (κ × α)) (k : κ) (v : α) (p : κ × α)
    (hnd : (alKeys d).Nodup) :
    p ∈ alInsert d k v ↔ (p = (k, v) ∨ (p ∈ d ∧ p.1 ≠ k)) := by
  cases hget : alGet d k with
  | none =>
      rw [alInsert_of_absent d k v hget]
      simp only [List.mem_append, List.mem_singleton]
      constructor
      · rintro (h | h)
        · refine Or.inr ⟨h, ?_⟩
          intro hpk
          have := mem_alKeys_of_mem h
          rw [hpk] at this
          exact ((alGet_eq_none_iff d k).mp hget) this
        · exact Or.inl h
      · rintro (h | h)
        · exact Or.inr h
        · exact Or.inl h.1
  | some w =>
      have hperm := perm_alInsert_of_present d k v w hnd hget
      rw [hperm.mem_iff]
      simp only [List.mem_cons, mem_alErase]

end AssocListMore

/-- Users with no record have no approved purchases, so their attributed
amount is zero. -/
theorem userApprovedAmount_zero (s : Storage) (uid : Int)
    (h : ∀ pr ∈ s.approved, pr.2.user_id ≠ uid) :
    userApprovedAmount s uid = 0 := by
  unfold userApprovedAmount
  have hnil : s.approved.filter (fun pr => decide (pr.2.user_id = uid)) = [] := by
    rw [List.filter_eq_nil_iff]
    intro pr hpr
    simpa using h pr hpr
  rw [hnil]
  rfl

/-- Writing a user record whose `total_spent` matches the user's attributed
approved amount preserves the invariant. -/
theorem inv_users_insert (s : Storage) (uid : Int) (rec : UserRecord)
    (hI : Inv s) (hspent : rec.total_spent = userApprovedAmount s uid) :
    Inv { s with users := alInsert s.users uid rec } := by
  constructor
  · exact hI.perm
  · exact hI.pendingKeys
  · exact hI.approvedKeys
  · exact alKeys_nodup_alInsert _ _ _ hI.usersKeys
  · exact hI.disj
  · intro pr hpr
    rw [alGet_alInsert]
    by_cases h : pr.2.user_id = uid
    · simp [h]
    · simp only [if_neg h]
      exact hI.userRec pr hpr
  · intro u hu
    rw [mem_alInsert_iff _ _ _ _ hI.usersKeys] at hu
    rcases hu with hu | hu
    · subst hu
      exact hspent
    · exact hI.spent u hu.1
  · exact hI.pendingAmt
  · exact hI.approvedAmt

/-- `register_user` preserves the invariant. -/
theorem inv_register (s : Storage) (uid : Int)
    (u f pn : Option String) (now : Nat) (hI : Inv s) :
    Inv (register_user s uid u f pn now) := by
  unfold register_user
  cases hget : alGet s.users uid with
  | none =>
      apply inv_users_insert _ _ _ hI
      have hnone : ∀ pr ∈ s.approved, pr.2.user_id ≠ uid := by
        intro pr hpr heq
        have := hI.userRec pr hpr
        rw [heq, hget] at this
        simp at this
      rw [userApprovedAmount_zero s uid hnone]
  | some r =>
      apply inv_users_insert _ _ _ hI
      have hr := hI.spent (uid, r) (alGet_mem hget)
      have hsp : ∀ r' : UserRecord, r'.total_spent = r.total_spent →
          r'.total_spent = userApprovedAmount s uid := by
        intro r' h
        rw [h]
        exact hr
      cases u <;> by_cases hf : truthy f <;> by_cases hp : truthy pn <;>
        simp [hf, hp] <;> exact hr

/-- `create_pending_purchase`, with a fresh id and a nonnegative amount,
preserves the invariant. -/
theorem inv_create (s : Storage) (pid : String) (uid : Int)
    (u f pn : Option String) (q tp : Int) (rf rt : String) (now : Nat)
    (hI : Inv s)
    (hfp : alGet s.pending pid = none)
    (hfa : alGet s.approved pid = none)
    (hq : 1 ≤ q) (htp : 0 ≤ tp) :
    Inv (create_pending_purchase s pid uid u f pn q tp rf rt now).2 := by
  unfold create_pending_purchase
  constructor
  · exact hI.perm
  · exact alKeys_nodup_alInsert _ _ _ hI.pendingKeys
  · exact hI.approvedKeys
  · exact hI.usersKeys
  · intro k hk
    rw [alKeys_alInsert] at hk
    rw [hfp] at hk
    simp only [Option.isSome_none, Bool.false_eq_true, if_false,
      List.mem_append, List.mem_singleton] at hk
    rcases hk with hk | hk
    · exact hI.disj k hk
    · subst hk
      exact (alGet_eq_none_iff _ _).mp hfa
  · exact hI.userRec
  · exact hI.spent
  · intro pr hpr
    rw [mem_alInsert_iff _ _ _ _ hI.pendingKeys] at hpr
    rcases hpr with hpr | hpr
    · subst hpr
      have h0q : 0 ≤ q := by omega
      simpa using mul_nonneg htp h0q
    · exact hI.pendingAmt pr hpr.1
  · exact hI.approvedAmt

theorem approveBase_total_spent (s : Storage) (p : Purchase) (pid : String)
    (samp : List Int) (now : Nat) :
    (approveBase s p pid samp now).total_spent =
      ((alGet s.users p.user_id).getD (freshRecordOf p now)).total_spent +
        p.amount := by
  unfold approveBase
  by_cases hph : truthy p.phone_number <;> simp [hph]

/-- The successful branch of `approve_purchase`, as one state equation. -/
theorem approve_success_state (s : Storage) (pid : String) (p : Purchase)
    (samp : List Int) (now : Nat)
    (hget : alGet s.pending pid = some p)
    (hlt : ¬ (s.available_tickets.length : Int) < p.quantity) :
    (approve_purchase s pid samp now).2 = { s with
      available_tickets := removeEach s.available_tickets samp,
      pending := alErase s.pending pid,
      approved := alInsert s.approved pid (approvedMark p samp now),
      user_tickets := alInsert s.user_tickets p.user_id
        (((alGet s.user_tickets p.user_id).getD []) ++ samp),
      users := alInsert s.users p.user_id (approveBase s p pid samp now) } := by
  simp [approve_purchase, hget, hlt, approvedMark, approveBase, approveEntry]

/-- `approve_purchase` preserves the invariant on legal inputs. -/
theorem inv_approve (s : Storage) (pid : String) (samp : List Int)
    (now : Nat) (hI : Inv s)
    (hleg : legalOp s (StoreOp.approve pid samp now) = true) :
    Inv (approve_purchase s pid samp now).2 := by
  cases hget : alGet s.pending pid with
  | none =>
      have hres : (approve_purchase s pid samp now).2 = s := by
        simp [approve_purchase, hget]
      rw [hres]
      exact hI
  | some p =>
      by_cases hlt : (s.available_tickets.length : Int) < p.quantity
      · -- shortage: the purchase is re-inserted, nothing else changes
        have hres : (approve_purchase s pid samp now).2 = { s with
            pending := alInsert (alErase s.pending pid) pid p } := by
          simp [approve_purchase, hget, hlt]
        rw [hres]
        have herased : alGet (alErase s.pending pid) pid = none := by
          rw [alGet_alErase]
          simp
        constructor
        · exact hI.perm
        · rw [alKeys_alInsert, herased]
          simp only [Option.isSome_none, Bool.false_eq_true, if_false]
          rw [List.nodup_append]
          refine ⟨alKeys_nodup_alErase _ _ hI.pendingKeys, List.nodup_singleton _, ?_⟩
          intro k hk hk2
          rw [List.mem_singleton] at hk2
          subst hk2
          exact absurd rfl (mem_alKeys_alErase hk).2
        · exact hI.approvedKeys
        · exact hI.usersKeys
        · intro k hk
          rw [alKeys_alInsert, herased] at hk
          simp only [Option.isSome_none, Bool.false_eq_true, if_false,
            List.mem_append, List.mem_singleton] at hk
          rcases hk with hk | hk
          · exact hI.disj k (mem_alKeys_alErase hk).1
          · subst hk
            exact hI.disj k ((alGet_isSome_iff _ _).mp (by simp [hget]))
        · exact hI.userRec
        · exact hI.spent
        · intro pr hpr
          rw [mem_alInsert_iff _ _ _ _
            (alKeys_nodup_alErase _ _ hI.pendingKeys)] at hpr
          rcases hpr with hpr | hpr
          · subst hpr
            exact hI.pendingAmt (pid, p) (alGet_mem hget)
          · exact hI.pendingAmt pr ((mem_alErase _ _ _).mp hpr.1).1
        · exact hI.approvedAmt
      · -- success
        have hsamp : samp.Nodup ∧ (∀ t ∈ samp, t ∈ s.available_tickets) ∧
            (samp.length : Int) = p.quantity := by
          simp only [legalOp] at hleg
          rw [hget] at hleg
          simp [hlt] at hleg
          exact ⟨hleg.1.1, fun t ht => hleg.1.2 t ht, hleg.2⟩
        obtain ⟨hnd, hsub, hlen⟩ := hsamp
        have hpid_pend : pid ∈ alKeys s.pending :=
          (alGet_isSome_iff _ _).mp (by simp [hget])
        have hpid_na : pid ∉ alKeys s.approved := hI.disj pid hpid_pend
        have happrget : alGet s.approved pid = none :=
          (alGet_eq_none_iff _ _).mpr hpid_na
        have happr_eq : alInsert s.approved pid (approvedMark p samp now) =
            s.approved ++ [(pid, approvedMark p samp now)] :=
          alInsert_of_absent _ _ _ happrget
        rw [approve_success_state s pid p samp now hget hlt]
        constructor
        · -- the permutation with the full range
          unfold poolPlusApproved approvedTicketLists
          simp only [happr_eq, List.map_append, List.flatten_append]
          have hmark : (approvedMark p samp now).tickets = samp := rfl
          simp only [List.map_cons, List.map_nil, List.flatten_cons,
            List.flatten_nil, hmark, List.append_nil]
          have h1 : (removeEach s.available_tickets samp ++
              ((s.approved.map (fun pr => pr.2.tickets)).flatten ++ samp)).Perm
              (s.available_tickets ++
                (s.approved.map (fun pr => pr.2.tickets)).flatten) := by
            refine (List.Perm.append_left _ List.perm_append_comm).trans ?_
            rw [← List.append_assoc]
            exact (perm_removeEach_append s.available_tickets samp hnd
              hsub).append_right _
          exact h1.trans hI.perm
        · exact alKeys_nodup_alErase _ _ hI.pendingKeys
        · exact alKeys_nodup_alInsert _ _ _ hI.approvedKeys
        · exact alKeys_nodup_alInsert _ _ _ hI.usersKeys
        · intro k hk
          obtain ⟨hk1, hk2⟩ := mem_alKeys_alErase hk
          rw [alKeys_alInsert, happrget]
          simp only [Option.isSome_none, Bool.false_eq_true, if_false,
            List.mem_append, List.mem_singleton]
          rintro (h | h)
          · exact hI.disj k hk1 h
          · exact hk2 h
        · intro pr hpr
          rw [mem_alInsert_iff _ _ _ _ hI.approvedKeys] at hpr
          rcases hpr with hpr | hpr
          · subst hpr
            have : (approvedMark p samp now).user_id = p.user_id := rfl
            rw [this, alGet_alInsert_self]
            rfl
          · rw [alGet_alInsert]
            by_cases h : pr.2.user_id = p.user_id
            · simp [h]
            · simp only [if_neg h]
              exact hI.userRec pr hpr.1
        · -- spent
          intro w hw
          rw [mem_alInsert_iff _ _ _ _ hI.usersKeys] at hw
          have hamt : ∀ uid : Int, userApprovedAmount { s with
              available_tickets := removeEach s.available_tickets samp,
              pending := alErase s.pending pid,
              approved := alInsert s.approved pid (approvedMark p samp now),
              user_tickets := alInsert s.user_tickets p.user_id
                (((alGet s.user_tickets p.user_id).getD []) ++ samp),
              users := alInsert s.users p.user_id
                (approveBase s p pid samp now) } uid =
              userApprovedAmount s uid +
                (if p.user_id = uid then p.amount else 0) := by
            intro uid
            unfold userApprovedAmount
            simp only [happr_eq, List.filter_append, List.map_append,
              List.sum_append]
            congr 1
            by_cases h : p.user_id = uid
            · have : (approvedMark p samp now).user_id = p.user_id := rfl
              simp [List.filter_cons, this, h, approvedMark]
            · have : (approvedMark p samp now).user_id = p.user_id := rfl
              simp [List.filter_cons, this, h]
          rcases hw with hw | hw
          · subst hw
            rw [hamt p.user_id, if_pos rfl]
            rw [approveBase_total_spent]
            cases hu : alGet s.users p.user_id with
            | none =>
                have hz : userApprovedAmount s p.user_id = 0 := by
                  apply userApprovedAmount_zero
                  intro pr hpr heq
                  have := hI.userRec pr hpr
                  rw [heq, hu] at this
                  simp at this
                simp [hz, freshRecordOf]
            | some r =>
                have := hI.spent (p.user_id, r) (alGet_mem hu)
                simp only [Option.getD_some]
                rw [this]
          · rw [hamt w.1, if_neg (fun h => hw.2 h.symm)]
            rw [add_zero]
            exact hI.spent w hw.1
        · intro pr hpr
          exact hI.pendingAmt pr ((mem_alErase _ _ _).mp hpr).1
        · intro pr hpr
          rw [mem_alInsert_iff _ _ _ _ hI.approvedKeys] at hpr
          rcases hpr with hpr | hpr
          · subst hpr
            have : (approvedMark p samp now).amount = p.amount := rfl
            rw [this]
            exact hI.pendingAmt (pid, p) (alGet_mem hget)
          · exact hI.approvedAmt pr hpr.1

/-- The found branch of `cancel_approved_purchase`, as one state
equation. -/
theorem cancel_state (s : Storage) (pid : String) (p : Purchase) (now : Nat)
    (hget : alGet s.approved pid = some p) :
    (cancel_approved_purchase s pid now).2 = { s with
      approved := alErase s.approved pid,
      available_tickets := pySortedSet (s.available_tickets ++ p.tickets),
      user_tickets := cancelBucket s p,
      users := cancelUsers s p pid now } := by
  simp [cancel_approved_purchase, hget, cancelBucket, cancelUsers,
    cancelEntry]

/-- `cancel_approved_purchase` preserves the invariant. -/
theorem inv_cancel (s : Storage) (pid : String) (now : Nat) (hI : Inv s) :
    Inv (cancel_approved_purchase s pid now).2 := by
  cases hget : alGet s.approved pid with
  | none =>
      have hres : (cancel_approved_purchase s pid now).2 = s := by
        simp [cancel_approved_purchase, hget]
      rw [hres]
      exact hI
  | some p =>
      rw [cancel_state s pid p now hget]
      have hpermA : s.approved.Perm ((pid, p) :: alErase s.approved pid) :=
        perm_cons_alErase _ _ _ hI.approvedKeys hget
      have hjoin : (approvedTicketLists s).flatten.Perm
          (p.tickets ++
            ((alErase s.approved pid).map (fun pr => pr.2.tickets)).flatten) := by
        have hmap := hpermA.map (fun pr => pr.2.tickets)
        have := perm_flatten hmap
        simpa [List.flatten_cons] using this
      have hPP : (poolPlusApproved s).Perm
          (s.available_tickets ++ (p.tickets ++
            ((alErase s.approved pid).map (fun pr => pr.2.tickets)).flatten)) :=
        List.Perm.append_left _ hjoin
      have hNodupPP : (poolPlusApproved s).Nodup :=
        hI.perm.nodup_iff.mpr (initialTickets_nodup _)
      have hN2 : (s.available_tickets ++ (p.tickets ++
          ((alErase s.approved pid).map (fun pr => pr.2.tickets)).flatten)).Nodup :=
        hPP.nodup_iff.mp hNodupPP
      have hN3 : (s.available_tickets ++ p.tickets).Nodup := by
        rw [← List.append_assoc] at hN2
        obtain ⟨h1, -, -⟩ := List.nodup_append.mp hN2
        exact h1
      have havail : (pySortedSet (s.available_tickets ++ p.tickets)).Perm
          (s.available_tickets ++ p.tickets) := by
        have h1 := pySortedSet_perm_dedup (s.available_tickets ++ p.tickets)
        rw [List.dedup_eq_self.mpr hN3] at h1
        exact h1
      have hfilter_sum : ∀ uid : Int,
          userApprovedAmount s uid =
            (if p.user_id = uid then p.amount else 0) +
            (((alErase s.approved pid).filter
              (fun pr => decide (pr.2.user_id = uid))).map
                (fun pr => pr.2.amount)).sum := by
        intro uid
        unfold userApprovedAmount
        have h1 := (hpermA.filter (fun pr => decide (pr.2.user_id = uid))).map
          (fun pr => pr.2.amount)
        rw [h1.sum_eq]
        by_cases h : p.user_id = uid
        · simp [List.filter_cons, h]
        · simp [List.filter_cons, h]
      constructor
      · unfold poolPlusApproved approvedTicketLists
        refine (havail.append_right _).trans ?_
        rw [List.append_assoc]
        exact hPP.symm.trans hI.perm
      · exact hI.pendingKeys
      · exact alKeys_nodup_alErase _ _ hI.approvedKeys
      · unfold cancelUsers
        cases hu : alGet s.users p.user_id with
        | none => exact hI.usersKeys
        | some r => exact alKeys_nodup_alInsert _ _ _ hI.usersKeys
      · intro k hk
        intro hk2
        exact hI.disj k hk (mem_alKeys_alErase hk2).1
      · intro pr hpr
        have hpr' : pr ∈ s.approved := ((mem_alErase _ _ _).mp hpr).1
        unfold cancelUsers
        cases hu : alGet s.users p.user_id with
        | none => exact hI.userRec pr hpr'
        | some r =>
            rw [alGet_alInsert]
            by_cases h : pr.2.user_id = p.user_id
            · simp [h]
            · simp only [if_neg h]
              exact hI.userRec pr hpr'
      · -- spent
        intro w hw
        have huaa' : ∀ uid : Int, uid ≠ p.user_id →
            (((alErase s.approved pid).filter
              (fun pr => decide (pr.2.user_id = uid))).map
                (fun pr => pr.2.amount)).sum = userApprovedAmount s uid := by
          intro uid hne
          rw [hfilter_sum uid, if_neg (fun h => hne h.symm), zero_add]
        unfold cancelUsers at hw
        cases hu : alGet s.users p.user_id with
        | none =>
            rw [hu] at hw
            have hw1 : w.1 ≠ p.user_id := by
              intro heq
              have hks : w.1 ∈ alKeys s.users := mem_alKeys_of_mem hw
              rw [heq] at hks
              have := (alGet_isSome_iff s.users p.user_id).mpr hks
              rw [hu] at this
              simp at this
            show w.2.total_spent = _
            rw [hI.spent w hw]
            exact (huaa' w.1 hw1).symm
        | some r =>
            rw [hu] at hw
            rw [mem_alInsert_iff _ _ _ _ hI.usersKeys] at hw
            rcases hw with hw | hw
            · subst hw
              show max 0 (r.total_spent - p.amount) = _
              have hr := hI.spent (p.user_id, r) (alGet_mem hu)
              have hE : r.total_spent =
                  p.amount + (((alErase s.approved pid).filter
                    (fun pr => decide (pr.2.user_id = p.user_id))).map
                      (fun pr => pr.2.amount)).sum := by
                rw [hr, hfilter_sum p.user_id, if_pos rfl]
              have hEnn : 0 ≤ (((alErase s.approved pid).filter
                  (fun pr => decide (pr.2.user_id = p.user_id))).map
                    (fun pr => pr.2.amount)).sum := by
                apply List.sum_nonneg
                intro x hx
                rw [List.mem_map] at hx
                obtain ⟨pr, hpr, hxe⟩ := hx
                rw [← hxe]
                exact hI.approvedAmt pr
                  ((mem_alErase _ _ _).mp (List.mem_of_mem_filter hpr)).1
              rw [hE]
              have : p.amount + (((alErase s.approved pid).filter
                  (fun pr => decide (pr.2.user_id = p.user_id))).map
                    (fun pr => pr.2.amount)).sum - p.amount =
                  (((alErase s.approved pid).filter
                    (fun pr => decide (pr.2.user_id = p.user_id))).map
                      (fun pr => pr.2.amount)).sum := by ring
              rw [this, max_eq_right hEnn]
              rfl
            · show w.2.total_spent = _
              rw [hI.spent w hw.1]
              exact (huaa' w.1 hw.2).symm
      · exact hI.pendingAmt
      · intro pr hpr
        exact hI.approvedAmt pr ((mem_alErase _ _ _).mp hpr).1

/-- `reject_purchase` preserves the invariant. -/
theorem inv_reject (s : Storage) (pid : String) (now : Nat) (hI : Inv s) :
    Inv (reject_purchase s pid now).2 := by
  cases hget : alGet s.pending pid with
  | none =>
      have hres : (reject_purchase s pid now).2 = s := by
        simp [reject_purchase, hget]
      rw [hres]
      exact hI
  | some p =>
      cases hu : alGet s.users p.user_id with
      | none =>
          have hres : (reject_purchase s pid now).2 = { s with
              pending := alErase s.pending pid,
              rejected := alInsert s.rejected pid
                { p with status := "rejected", resolved_at := some now } } := by
            simp [reject_purchase, hget, hu]
          rw [hres]
          constructor
          · exact hI.perm
          · exact alKeys_nodup_alErase _ _ hI.pendingKeys
          · exact hI.approvedKeys
          · exact hI.usersKeys
          · intro k hk
            exact hI.disj k (mem_alKeys_alErase hk).1
          · exact hI.userRec
          · exact hI.spent
          · intro pr hpr
            exact hI.pendingAmt pr ((mem_alErase _ _ _).mp hpr).1
          · exact hI.approvedAmt
      | some r =>
          have hres : (reject_purchase s pid now).2 = { s with
              pending := alErase s.pending pid,
              rejected := alInsert s.rejected pid
                { p with status := "rejected", resolved_at := some now },
              users := alInsert s.users p.user_id
                { r with last_active := now } } := by
            simp [reject_purchase, hget, hu]
          rw [hres]
          constructor
          · exact hI.perm
          · exact alKeys_nodup_alErase _ _ hI.pendingKeys
          · exact hI.approvedKeys
          · exact alKeys_nodup_alInsert _ _ _ hI.usersKeys
          · intro k hk
            exact hI.disj k (mem_alKeys_alErase hk).1
          · intro pr hpr
            rw [alGet_alInsert]
            by_cases h : pr.2.user_id = p.user_id
            · simp [h]
            · simp only [if_neg h]
              exact hI.userRec pr hpr
          · intro w hw
            rw [mem_alInsert_iff _ _ _ _ hI.usersKeys] at hw
            rcases hw with hw | hw
            · subst hw
              exact hI.spent (p.user_id, r) (alGet_mem hu)
            · exact hI.spent w hw.1
          · intro pr hpr
            exact hI.pendingAmt pr ((mem_alErase _ _ _).mp hpr).1
          · exact hI.approvedAmt

/-- The invariant holds in the fresh store. -/
theorem inv_init (n : Nat) (card : String) : Inv (initialStorage n card) := by
  constructor
  · unfold poolPlusApproved approvedTicketLists initialStorage
    simp
  · simp [initialStorage, alKeys]
  · simp [initialStorage, alKeys]
  · simp [initialStorage, alKeys]
  · intro k hk
    simp [initialStorage, alKeys] at hk
  · intro pr hpr
    simp [initialStorage] at hpr
  · intro u hu
    simp [initialStorage] at hu
  · intro pr hpr
    simp [initialStorage] at hpr
  · intro pr hpr
    simp [initialStorage] at hpr

/-- Every legal operation preserves the invariant. -/
theorem inv_step (s : Storage) (op : StoreOp) (hI : Inv s)
    (hleg : legalOp s op = true) : Inv (stepOp s op) := by
  cases op with
  | register uid u f pn now => exact inv_register s uid u f pn now hI
  | create pid uid u f pn q tp rf rt now =>
      simp only [legalOp, Bool.and_eq_true, Bool.not_eq_true',
        decide_eq_true_eq] at hleg
      obtain ⟨⟨⟨h1, h2⟩, h3⟩, h4⟩ := hleg
      exact inv_create s pid uid u f pn q tp rf rt now hI
        (by cases hm : alGet s.pending pid with
          | none => rfl
          | some w => rw [hm] at h1; simp at h1)
        (by cases hm : alGet s.approved pid with
          | none => rfl
          | some w => rw [hm] at h2; simp at h2)
        h3 h4
  | approve pid samp now => exact inv_approve s pid samp now hI hleg
  | reject pid now => exact inv_reject s pid now hI
  | cancel pid now => exact inv_cancel s pid now hI

/-- Every reachable state satisfies the invariant. -/
theorem inv_reachable (n : Nat) (card : String) (s : Storage)
    (h : Reachable n card s) : Inv s := by
  induction h with
  | init => exact inv_init n card
  | step hr hleg ih => exact inv_step _ _ ih hleg

/-- No operation changes the configured ticket total. -/
theorem stepOp_total_tickets (s : Storage) (op : StoreOp) :
    (stepOp s op).total_tickets = s.total_tickets := by
  cases op with
  | register uid u f pn now =>
      show (register_user s uid u f pn now).total_tickets = s.total_tickets
      unfold register_user
      cases alGet s.users uid <;> rfl
  | create pid uid u f pn q tp rf rt now =>
      show ((create_pending_purchase s pid uid u f pn q tp rf rt
        now).2).total_tickets = s.total_tickets
      rfl
  | approve pid samp now =>
      show ((approve_purchase s pid samp now).2).total_tickets =
        s.total_tickets
      unfold approve_purchase
      cases alGet s.pending pid with
      | none => rfl
      | some p =>
          dsimp only
          split <;> rfl
  | reject pid now =>
      show ((reject_purchase s pid now).2).total_tickets = s.total_tickets
      unfold reject_purchase
      cases alGet s.pending pid <;> rfl
  | cancel pid now =>
      show ((cancel_approved_purchase s pid now).2).total_tickets =
        s.total_tickets
      unfold cancel_approved_purchase
      cases alGet s.approved pid <;> rfl

/-- Reachable states keep the configured ticket total. -/
theorem reachable_total_tickets (n : Nat) (card : String) (s : Storage)
    (h : Reachable n card s) : s.total_tickets = n := by
  induction h with
  | init => rfl
  | step hr hleg ih =>
      rw [stepOp_total_tickets]
      exact ih

/-- With duplicate-free keys, a dict member is its key's binding. -/
theorem alGet_of_mem {κ α : Type} [DecidableEq κ] {d : List (κ × α)}
    {pr : κ × α} (hnd : (alKeys d).Nodup) (h : pr ∈ d) :
    alGet d pr.1 = some pr.2 := by
  induction d with
  | nil => simp at h
  | cons a d ih =>
      rw [alKeys_cons, List.nodup_cons] at hnd
      rcases List.mem_cons.mp h with h | h
      · subst h
        rw [alGet_cons]
        simp
      · have hne : ¬ (a.1 = pr.1) := by
          intro he
          exact hnd.1 (he ▸ mem_alKeys_of_mem h)
        rw [alGet_cons, if_neg hne]
        exact ih hnd.2 h

/-- Two different approved purchases hold disjoint ticket lists. -/
theorem approved_lists_disjoint (s : Storage) (hI : Inv s) :
    ∀ pr1 ∈ s.approved, ∀ pr2 ∈ s.approved, pr1.1 ≠ pr2.1 →
      ∀ t, t ∈ pr1.2.tickets → t ∉ pr2.2.tickets := by
  intro pr1 h1 pr2 h2 hne t ht1 ht2
  have hg1 : alGet s.approved pr1.1 = some pr1.2 :=
    alGet_of_mem hI.approvedKeys h1
  have hpermA : s.approved.Perm ((pr1.1, pr1.2) :: alErase s.approved pr1.1) :=
    perm_cons_alErase _ _ _ hI.approvedKeys hg1
  have hpr2' : pr2 ∈ alErase s.approved pr1.1 :=
    (mem_alErase _ _ _).mpr ⟨h2, fun he => hne he.symm⟩
  have hNodupPP : (poolPlusApproved s).Nodup :=
    hI.perm.nodup_iff.mpr (initialTickets_nodup _)
  have hjoin : (approvedTicketLists s).flatten.Perm
      (pr1.2.tickets ++
        ((alErase s.approved pr1.1).map (fun pr => pr.2.tickets)).flatten) := by
    have hmap := hpermA.map (fun pr => pr.2.tickets)
    simpa [List.flatten_cons] using perm_flatten hmap
  have hN : (s.available_tickets ++ (pr1.2.tickets ++
      ((alErase s.approved pr1.1).map (fun pr => pr.2.tickets)).flatten)).Nodup := by
    have := (List.Perm.append_left s.available_tickets hjoin).nodup_iff
    exact this.mp hNodupPP
  obtain ⟨-, hN2, -⟩ := List.nodup_append.mp hN
  obtain ⟨-, -, hdisj⟩ := List.nodup_append.mp hN2
  have ht2' : t ∈
      ((alErase s.approved pr1.1).map (fun pr => pr.2.tickets)).flatten := by
    rw [List.mem_flatten]
    exact ⟨pr2.2.tickets, List.mem_map_of_mem _ hpr2', ht2⟩
  exact hdisj ht1 ht2'

/-- No available ticket sits in an approved purchase's list. -/
theorem pool_approved_disjoint (s : Storage) (hI : Inv s) :
    ∀ t ∈ s.available_tickets, ∀ pr ∈ s.approved, t ∉ pr.2.tickets := by
  intro t ht pr hpr ht2
  have hNodupPP : (poolPlusApproved s).Nodup :=
    hI.perm.nodup_iff.mpr (initialTickets_nodup _)
  unfold poolPlusApproved at hNodupPP
  obtain ⟨-, -, hdisj⟩ := List.nodup_append.mp hNodupPP
  have ht2' : t ∈ (approvedTicketLists s).flatten := by
    rw [List.mem_flatten]
    exact ⟨pr.2.tickets, List.mem_map_of_mem _ hpr, ht2⟩
  exact hdisj ht ht2'

/-- The counting form of the invariant's permutation. -/
theorem inv_conservation (s : Storage) (hI : Inv s) :
    s.available_tickets.length +
      (s.approved.map (fun pr => pr.2.tickets.length)).sum =
        s.total_tickets := by
  have hlen := hI.perm.length_eq
  rw [initialTickets_length] at hlen
  unfold poolPlusApproved approvedTicketLists at hlen
  rw [List.length_append, List.length_flatten, List.map_map] at hlen
  simpa [Function.comp] using hlen

/-- Summing `total_spent` over users with duplicate-free keys that cover
all approved purchases and whose balances match their attributed amounts
yields the total approved amount. -/
theorem sum_spent_eq (users : List (Int × UserRecord))
    (apprs : List (String × Purchase)) :
    (alKeys users).Nodup →
    (∀ pr ∈ apprs, ∃ u ∈ users, pr.2.user_id = u.1) →
    (∀ u ∈ users, u.2.total_spent = ((apprs.filter
      (fun pr => decide (pr.2.user_id = u.1))).map
        (fun pr => pr.2.amount)).sum) →
    (users.map (fun u => u.2.total_spent)).sum =
      (apprs.map (fun pr => pr.2.amount)).sum := by
  induction users generalizing apprs with
  | nil =>
      intro _ hcov _
      have happrs : apprs = [] := by
        cases apprs with
        | nil => rfl
        | cons a l =>
            obtain ⟨u, hu, -⟩ := hcov a (List.mem_cons_self _ _)
            simp at hu
      rw [happrs]
      simp
  | cons u us ih =>
      intro hnd hcov hsp
      rw [alKeys_cons, List.nodup_cons] at hnd
      have hsplit := sum_map_filter_split apprs
        (fun pr => decide (pr.2.user_id = u.1)) (fun pr => pr.2.amount)
      have hu := hsp u (List.mem_cons_self _ _)
      have hih : (us.map (fun w => w.2.total_spent)).sum =
          ((apprs.filter (fun pr => !(decide (pr.2.user_id = u.1)))).map
            (fun pr => pr.2.amount)).sum := by
        apply ih
        · exact hnd.2
        · intro pr hpr
          have hpr1 : pr ∈ apprs := List.mem_of_mem_filter hpr
          have hprne : pr.2.user_id ≠ u.1 := by
            have := List.of_mem_filter hpr
            simpa using this
          obtain ⟨w, hw, hweq⟩ := hcov pr hpr1
          rcases List.mem_cons.mp hw with hw | hw
          · rw [hw] at hweq
            exact absurd hweq hprne
          · exact ⟨w, hw, hweq⟩
        · intro w hw
          have hwne : w.1 ≠ u.1 := by
            intro he
            exact hnd.1 (he ▸ mem_alKeys_of_mem hw)
          rw [hsp w (List.mem_cons_of_mem _ hw)]
          have hfe : (apprs.filter
              (fun pr => !(decide (pr.2.user_id = u.1)))).filter
                (fun pr => decide (pr.2.user_id = w.1)) =
              apprs.filter (fun pr => decide (pr.2.user_id = w.1)) := by
            rw [List.filter_filter]
            apply List.filter_congr
            intro pr hpr
            by_cases h : pr.2.user_id = w.1
            · have h2 : pr.2.user_id ≠ u.1 := by
                rw [h]
                exact hwne
              simp [h, h2, hwne]
            · simp [h]
          rw [hfe]
      rw [List.map_cons, List.sum_cons, hu, hih]
      exact hsplit

/-! ## C1 — ticket conservation -/

/-- C1: along every legal operation sequence from the fresh store with
pool `1..N`, the available count plus the approved ticket-list lengths is
`N`, no ticket occurs in two different approved purchases, and no ticket
is both available and approved. -/
theorem c1_ticket_conservation (n : Nat) (card : String) (s : Storage)
    (h : Reachable n card s) :
    (s.available_tickets.length +
      (s.approved.map (fun pr => pr.2.tickets.length)).sum = n) ∧
    (∀ pr1 ∈ s.approved, ∀ pr2 ∈ s.approved, pr1.1 ≠ pr2.1 →
      ∀ t, t ∈ pr1.2.tickets → t ∉ pr2.2.tickets) ∧
    (∀ t ∈ s.available_tickets, ∀ pr ∈ s.approved, t ∉ pr.2.tickets) := by
  have hI := inv_reachable n card s h
  refine ⟨?_, approved_lists_disjoint s hI, pool_approved_disjoint s hI⟩
  rw [← reachable_total_tickets n card s h]
  exact inv_conservation s hI

/-! ## C8 — stats revenue consistency -/

/-- C8: in every reachable state, the revenue reported by
`get_detailed_stats` (the sum of per-user `total_spent`) equals the sum of
the amounts of the purchases currently approved. -/
theorem c8_stats_revenue (n : Nat) (card : String) (s : Storage)
    (h : Reachable n card s) :
    (get_detailed_stats s).total_revenue = approvedAmountSum s := by
  have hI := inv_reachable n card s h
  have hcov : ∀ pr ∈ s.approved, ∃ u ∈ s.users, pr.2.user_id = u.1 := by
    intro pr hpr
    obtain ⟨r, hr⟩ := Option.isSome_iff_exists.mp (hI.userRec pr hpr)
    exact ⟨(pr.2.user_id, r), alGet_mem hr, rfl⟩
  have hsum := sum_spent_eq s.users s.approved hI.usersKeys hcov hI.spent
  unfold get_detailed_stats approvedAmountSum
  simpa [Function.comp, List.map_map] using hsum

/-- The concrete trace is legal. -/
theorem sC1_reachable : Reachable 3 "" sC1 :=
  Reachable.step (Reachable.step Reachable.init (by decide)) (by decide)

/-- C1 witness: conservation and pool/approved disjointness checked on the
concrete two-operation trace. -/
theorem c1_ticket_conservation_witness :
    (sC1.available_tickets.length +
      (sC1.approved.map (fun pr => pr.2.tickets.length)).sum = 3) ∧
    (∀ t ∈ sC1.available_tickets, ∀ pr ∈ sC1.approved,
      t ∉ pr.2.tickets) := by
  have h := c1_ticket_conservation 3 "" sC1 sC1_reachable
  exact ⟨h.1, h.2.2⟩

/-- C8 witness: revenue consistency on the concrete trace. -/
theorem c8_stats_revenue_witness :
    (get_detailed_stats sC1).total_revenue = approvedAmountSum sC1 :=
  c8_stats_revenue 3 "" sC1 sC1_reachable

end LotteryBot
